import Mathlib

/-!
Verification of the streamjam in-memory PubSub broker and session orchestrator.

The definitions below are shallow embeddings of `streamjam/pubsub.py`,
`streamjam/component.py` and `streamjam/server.py`.  Python dictionaries are
modelled as association lists with first-match lookup, Python sets as
duplicate-free lists, and `asyncio.PriorityQueue` as the CPython `heapq`
algorithm over a list (which is exactly what `PriorityQueue.put_nowait` /
`get_nowait` run).
-/

namespace Streamjam

/-- Wire/payload values.  Payloads are opaque to the broker and session, so a
small closed universe suffices for the embedding. -/
inductive Value where
  | nil
  | str (s : String)
  | int (n : Int)
  deriving DecidableEq, Repr

instance : Inhabited Value := ⟨.nil⟩

/-- Modelled from the spec: `ServiceEvent` is declared in `streamjam/base.py`,
which is imported by `pubsub.py` and `service.py` but whose `ServiceEvent`
definition is not among the provided sources.  Per the spec data model it has
`name`, `source` (emitting identity), `data` and an integer `priority`
defaulting to 1. -/
structure ServiceEvent where
  name : String
  source : String
  data : Value := .nil
  priority : Int := 1
  deriving DecidableEq, Repr

instance : Inhabited ServiceEvent := ⟨⟨"", "", default, 1⟩⟩

/-- Modelled from the spec: events are "ordered for delivery by `priority`
ascending (lower numeric value delivered first)", so the comparison used by
the priority queue (Python `<` on queue entries) compares priorities. -/
def ServiceEvent.lt (a b : ServiceEvent) : Bool := a.priority < b.priority

/-! ### CPython heapq, as run by `asyncio.PriorityQueue`

`put_nowait` is `heapq.heappush` and `get_nowait` is `heapq.heappop` on a
plain Python list.  The functions below are the CPython `heapq` reference
implementation translated clause by clause; list cells are read with a
defaulted getter (all reads in the algorithm are in bounds). -/

/-- Read index `i` of the backing list (defaulted; heapq only reads in
bounds). -/
def hget (l : List ServiceEvent) (i : Nat) : ServiceEvent := l.getD i default

/-- CPython `heapq._siftdown(heap, startpos, pos)` with the moving item made
explicit: the loop walks `pos` up toward `startpos`, shifting parents down
while `newitem < parent`, then writes `newitem` at the final position.  The
loop is expressed with structural fuel so that the kernel can evaluate it;
each iteration strictly decreases `pos`, so the `pos` units of fuel supplied
by `siftdownAux` are never exhausted. -/
def siftdownAuxF : Nat → List ServiceEvent → Nat → Nat → ServiceEvent →
    List ServiceEvent
  | 0, heap, _, pos, newitem => heap.set pos newitem
  | fuel + 1, heap, startpos, pos, newitem =>
    if startpos < pos then
      let parentpos := (pos - 1) / 2
      let parent := hget heap parentpos
      if newitem.lt parent then
        siftdownAuxF fuel (heap.set pos parent) startpos parentpos newitem
      else
        heap.set pos newitem
    else
      heap.set pos newitem

/-- The `_siftdown` loop with its (sufficient) fuel. -/
def siftdownAux (heap : List ServiceEvent) (startpos pos : Nat)
    (newitem : ServiceEvent) : List ServiceEvent :=
  siftdownAuxF pos heap startpos pos newitem

/-- CPython `heapq._siftdown` proper (reads the moving item at `pos`). -/
def siftdown (heap : List ServiceEvent) (startpos pos : Nat) : List ServiceEvent :=
  siftdownAux heap startpos pos (hget heap pos)

/-- CPython `heapq._siftup(heap, pos)` with `startpos`/`newitem` explicit:
bubbles the hole at `pos` down to a leaf, always following the smaller child
(ties pick the right child, per `not heap[childpos] < heap[rightpos]`), then
restores `newitem` by `_siftdown`.  The loop carries structural fuel; the
hole index strictly increases below `heap.length`, so the `heap.length`
units supplied by `siftupAux` are never exhausted (at fuel 0 the loop body
cannot run, matching the loop exit). -/
def siftupAuxF : Nat → List ServiceEvent → Nat → Nat → ServiceEvent →
    List ServiceEvent
  | 0, heap, startpos, pos, newitem => siftdownAux (heap.set pos newitem) startpos pos newitem
  | fuel + 1, heap, startpos, pos, newitem =>
    if 2 * pos + 1 < heap.length then
      let childpos :=
        if 2 * pos + 2 < heap.length then
          if ¬ (hget heap (2 * pos + 1)).lt (hget heap (2 * pos + 2)) then 2 * pos + 2
          else 2 * pos + 1
        else 2 * pos + 1
      siftupAuxF fuel (heap.set pos (hget heap childpos)) startpos childpos newitem
    else
      siftdownAux (heap.set pos newitem) startpos pos newitem

/-- The `_siftup` loop with its (sufficient) fuel. -/
def siftupAux (heap : List ServiceEvent) (startpos pos : Nat)
    (newitem : ServiceEvent) : List ServiceEvent :=
  siftupAuxF heap.length heap startpos pos newitem

/-- CPython `heapq._siftup` proper. -/
def siftup (heap : List ServiceEvent) (pos : Nat) : List ServiceEvent :=
  siftupAux heap pos pos (hget heap pos)

/-- CPython `heapq.heappush`: append then `_siftdown(heap, 0, len(heap)-1)`.
This is what `asyncio.PriorityQueue.put_nowait` executes. -/
def heappush (heap : List ServiceEvent) (item : ServiceEvent) : List ServiceEvent :=
  siftdown (heap ++ [item]) 0 heap.length

/-- CPython `heapq.heappop`: pop the last element; if the heap is still
non-empty, move it to the root and `_siftup(heap, 0)`.  Returns `none` on an
empty heap (CPython raises `IndexError`).  This is what
`asyncio.PriorityQueue.get_nowait` executes. -/
def heappop (heap : List ServiceEvent) : Option (ServiceEvent × List ServiceEvent) :=
  match heap with
  | [] => none
  | _ :: _ =>
    let lastelt := hget heap (heap.length - 1)
    let rest := heap.dropLast
    if rest.isEmpty then some (lastelt, [])
    else some (hget rest 0, siftup (rest.set 0 lastelt) 0)

/-- Push a whole publish sequence, in publish order, into an empty queue. -/
def pushAll (events : List ServiceEvent) : List ServiceEvent :=
  events.foldl heappush []

/-- Dequeue repeatedly with explicit fuel (each `heappop` shrinks the heap by
exactly one element, so `heap.length` fuel drains everything). -/
def drainFuel : Nat → List ServiceEvent → List ServiceEvent
  | 0, _ => []
  | fuel + 1, heap =>
    match heappop heap with
    | none => []
    | some (e, rest) => e :: drainFuel fuel rest

/-- Dequeue everything: the delivery order a subscriber observes. -/
def drain (heap : List ServiceEvent) : List ServiceEvent :=
  drainFuel heap.length heap

/-! ### Python dictionaries and sets

Dictionaries are association lists in insertion order with first-match
lookup; assignment replaces the first binding or appends a new one.  Sets are
duplicate-free lists in insertion order. -/

/-- Python dict read `d.get(key)`. -/
def alookup {α β : Type} [DecidableEq α] : List (α × β) → α → Option β
  | [], _ => none
  | (k, v) :: rest, key => if k = key then some v else alookup rest key

/-- Python dict assignment `d[key] = v`. -/
def aset {α β : Type} [DecidableEq α] : List (α × β) → α → β → List (α × β)
  | [], key, v => [(key, v)]
  | (k, w) :: rest, key, v =>
    if k = key then (key, v) :: rest else (k, w) :: aset rest key v

/-- Python `del d[key]`. -/
def aerase {α β : Type} [DecidableEq α] (l : List (α × β)) (key : α) : List (α × β) :=
  l.filter (fun kv => kv.1 ≠ key)

/-- Python `set.add`. -/
def sadd (s : List String) (x : String) : List String :=
  if x ∈ s then s else s ++ [x]

/-- Python `set.discard`. -/
def sdiscard (s : List String) (x : String) : List String :=
  s.filter (fun y => y ≠ x)

/-- Python `set(l)`. -/
def toSet (l : List String) : List String :=
  l.foldl sadd []

/-- Python `set.update` (in-place union). -/
def sunion (s members : List String) : List String :=
  members.foldl sadd s

/-- Python set difference `s - t`. -/
def sdiff (s t : List String) : List String :=
  s.filter (fun y => y ∉ t)

/-! ### PubSub broker (`streamjam/pubsub.py`)

`subscribers` is `defaultdict(lambda: defaultdict(set))` mapping
channel → topic → set of subscriber id; `message_queues` maps subscriber id →
`asyncio.PriorityQueue` (modelled by its heapq backing list);
`room_subscriptions` is `defaultdict(set)` mapping (channel, room) → set of
subscriber id.  The stats fields and background stats task are pure logging
and are not modelled. -/
structure PubSub where
  subscribers : List (String × List (String × List String)) := []
  message_queues : List (String × List ServiceEvent) := []
  room_subscriptions : List ((String × String) × List String) := []
  deriving DecidableEq

namespace PubSub

/-- Topic dict of a channel (`self.subscribers[channel]` as a value). -/
def channelTopics (ps : PubSub) (channel : String) : List (String × List String) :=
  (alookup ps.subscribers channel).getD []

/-- Subscriber set of `channel/topic` (`self.subscribers[channel][topic]` as a
value). -/
def subsOf (ps : PubSub) (channel topic : String) : List String :=
  (alookup (channelTopics ps channel) topic).getD []

/-- Member set of a room (`self.room_subscriptions[channel, room]` as a
value). -/
def roomOf (ps : PubSub) (channel room : String) : List String :=
  (alookup ps.room_subscriptions (channel, room)).getD []

/-- Registered queue of a subscriber id, if any. -/
def queueOf (ps : PubSub) (sid : String) : Option (List ServiceEvent) :=
  alookup ps.message_queues sid

/-- Topics currently present under a channel (the keys iterated by
`for topic in self.subscribers[channel]`). -/
def topicsOf (ps : PubSub) (channel : String) : List String :=
  (channelTopics ps channel).map Prod.fst

/-- The defaultdict side effect of reading `self.subscribers[channel]`:
inserts an empty topic dict when the channel is absent. -/
def ensureChannel (ps : PubSub) (channel : String) : PubSub :=
  match alookup ps.subscribers channel with
  | some _ => ps
  | none => { ps with subscribers := ps.subscribers ++ [(channel, [])] }

/-- The defaultdict side effect of reading
`self.subscribers[channel][topic]`. -/
def ensureTopic (ps : PubSub) (channel topic : String) : PubSub :=
  let ps := ensureChannel ps channel
  match alookup (channelTopics ps channel) topic with
  | some _ => ps
  | none =>
    let subs := aset ps.subscribers channel (channelTopics ps channel ++ [(topic, [])])
    { ps with subscribers := subs }

/-- The defaultdict side effect of reading
`self.room_subscriptions[channel, room]`. -/
def ensureRoom (ps : PubSub) (channel room : String) : PubSub :=
  match alookup ps.room_subscriptions (channel, room) with
  | some _ => ps
  | none =>
    { ps with room_subscriptions := ps.room_subscriptions ++ [((channel, room), [])] }

/-- In-place mutation of the set `self.subscribers[channel][topic]` (the
defaultdict read creates the keys first). -/
def modifySub (ps : PubSub) (channel topic : String)
    (f : List String → List String) : PubSub :=
  let ps := ensureTopic ps channel topic
  let subs := aset ps.subscribers channel
    (aset (channelTopics ps channel) topic (f (subsOf ps channel topic)))
  { ps with subscribers := subs }

/-- In-place mutation of the set `self.room_subscriptions[channel, room]`. -/
def modifyRoom (ps : PubSub) (channel room : String)
    (f : List String → List String) : PubSub :=
  let ps := ensureRoom ps channel room
  let rooms := aset ps.room_subscriptions (channel, room) (f (roomOf ps channel room))
  { ps with room_subscriptions := rooms }

/-- `PubSub.register(sid, queue)`. -/
def register (ps : PubSub) (sid : String) (queue : List ServiceEvent) : PubSub :=
  { ps with message_queues := aset ps.message_queues sid queue }

/-- `PubSub.subscribe(sid, channel, topic)`. -/
def subscribe (ps : PubSub) (sid channel topic : String) : PubSub :=
  modifySub ps channel topic (fun s => sadd s sid)

/-- `PubSub.unsubscribe(sid, channel, topic)`. -/
def unsubscribe (ps : PubSub) (sid channel topic : String) : PubSub :=
  modifySub ps channel topic (fun s => sdiscard s sid)

/-- The body of the delivery loop in `PubSub.publish`, for one subscriber id:
skip it when excluded, when a non-empty recipient restriction omits it, or
when it has no registered queue; otherwise `put_nowait` (`heappush`) the
event into its queue. -/
def publishStep (event : ServiceEvent) (excludeSet allRecipients : List String)
    (mq : List (String × List ServiceEvent)) (sid : String) :
    List (String × List ServiceEvent) :=
  if sid ∈ excludeSet then mq
  else if ¬ allRecipients.isEmpty ∧ sid ∉ allRecipients then mq
  else
    match alookup mq sid with
    | none => mq
    | some q => aset mq sid (heappush q event)

/-- `PubSub.publish(channel, event, rooms, recipients, exclude)` translated
clause by clause: gather the rooms' members into the explicit recipients,
subtract the exclusions, then walk the subscribers of `channel/event.name`
applying `publishStep`. -/
def publish (ps : PubSub) (channel : String) (event : ServiceEvent)
    (rooms : Option (List String) := none)
    (recipients : Option (List String) := none)
    (exclude : Option (List String) := none) : PubSub :=
  let roomsL := rooms.getD []
  let allRecipients0 := toSet (recipients.getD [])
  let excludeSet := toSet (exclude.getD [])
  let gathered := roomsL.foldl
    (fun (acc : PubSub × List String) room =>
      let ps' := ensureRoom acc.1 channel room
      (ps', sunion acc.2 (roomOf ps' channel room)))
    (ps, allRecipients0)
  let ps := gathered.1
  let allRecipients := sdiff gathered.2 excludeSet
  let ps := ensureTopic ps channel event.name
  let eventSubscribers := subsOf ps channel event.name
  let mq := eventSubscribers.foldl (publishStep event excludeSet allRecipients)
    ps.message_queues
  { ps with message_queues := mq }

/-- `PubSub.join_room(sid, channel, room)`: add the room membership, then add
the id to every topic currently present under the channel. -/
def join_room (ps : PubSub) (sid channel room : String) : PubSub :=
  let ps := modifyRoom ps channel room (fun s => sadd s sid)
  let ps := ensureChannel ps channel
  (topicsOf ps channel).foldl
    (fun ps t => modifySub ps channel t (fun s => sadd s sid)) ps

/-- `PubSub.leave_room(sid, channel, room)`: drop the room membership, then
drop the id from every topic currently present under the channel. -/
def leave_room (ps : PubSub) (sid channel room : String) : PubSub :=
  let ps := modifyRoom ps channel room (fun s => sdiscard s sid)
  let ps := ensureChannel ps channel
  (topicsOf ps channel).foldl
    (fun ps t => modifySub ps channel t (fun s => sdiscard s sid)) ps

/-- `PubSub.quit(sid, channel=None)`: with no channel, iterate the room table
keys, dropping the id from each room and from every topic of each room-key
channel; with a channel, drop the id from that channel's rooms and topics.
Finally delete the id's message queue. -/
def quit (ps : PubSub) (sid : String) (channel : Option String := none) : PubSub :=
  let ps :=
    match channel with
    | none =>
      (ps.room_subscriptions.map Prod.fst).foldl
        (fun ps cr =>
          let ps := modifyRoom ps cr.1 cr.2 (fun s => sdiscard s sid)
          let ps := ensureChannel ps cr.1
          (topicsOf ps cr.1).foldl
            (fun ps t => modifySub ps cr.1 t (fun s => sdiscard s sid)) ps)
        ps
    | some c =>
      let roomKeys := (ps.room_subscriptions.map Prod.fst).filter (fun cr => cr.1 = c)
      let ps := roomKeys.foldl
        (fun ps cr => modifyRoom ps cr.1 cr.2 (fun s => sdiscard s sid)) ps
      let ps := ensureChannel ps c
      (topicsOf ps c).foldl
        (fun ps t => modifySub ps c t (fun s => sdiscard s sid)) ps
  if (alookup ps.message_queues sid).isSome then
    { ps with message_queues := aerase ps.message_queues sid }
  else ps

/-- The restriction set `publish` compares subscribers against: the rooms'
members united with the explicit recipients, minus the exclusions (the value
of `all_recipients` when the delivery loop starts). -/
def effectiveRecipients (ps : PubSub) (channel : String)
    (rooms recipients exclude : Option (List String)) : List String :=
  sdiff
    ((rooms.getD []).foldl (fun acc room => sunion acc (roomOf ps channel room))
      (toSet (recipients.getD [])))
    (toSet (exclude.getD []))

end PubSub

/-- Python set intersection `s & t`. -/
def sinter (s t : List String) : List String :=
  s.filter (fun y => y ∈ t)

namespace PubSub

/-- Stated from the spec wording (for comparison against `publish`): the
delivery set the spec claims — subscribers of `channel/event.name`,
intersected with the union of the given rooms' members and explicit
recipients when `rooms` or `recipients` is given (otherwise all
subscribers), minus the exclude set. -/
def specDelivered (ps : PubSub) (channel : String) (event : ServiceEvent)
    (rooms recipients exclude : Option (List String)) : List String :=
  let subs := subsOf ps channel event.name
  let allowed :=
    if rooms.isSome ∨ recipients.isSome then
      (rooms.getD []).foldl (fun acc room => sunion acc (roomOf ps channel room))
        (toSet (recipients.getD []))
    else subs
  sdiff (sinter subs allowed) (toSet (exclude.getD []))

end PubSub

/-! ### Wire messages and sessions (`streamjam/protocol.py`, `server.py`,
`component.py`)

Python exceptions relevant to the claims. -/
inductive PyErr where
  | keyError
  | attributeError
  deriving DecidableEq

/-- Message topics: a plain string or a tuple serialized with `>`
(`protocol.Message`). -/
inductive Topic where
  | plain (s : String)
  | path (segs : List String)
  deriving DecidableEq

/-- `protocol.Message(topic, content, req_id)`. -/
structure Message where
  topic : Topic
  content : Value := .nil
  req_id : Option Value := none
  deriving DecidableEq

/-- Handlers are bound methods; they are identified by
(component id, attribute name), which is what registration equality compares
in the embedding. -/
abbrev HandlerRef := String × String

/-- The handler-discovery tags a component subclass carries on one attribute:
`@Component.on_event` sets `event_handler`, `@Component.on_update` sets
`store_update_handler`, `@ServiceProxy.on_event` sets
`service_event_handler` to (event name, service name), `@Component.rpc` sets
`rpc`, and `callable` records whether `getattr` yields a callable. -/
structure AttrTag where
  name : String
  event_handler : Option String := none
  store_update_handler : Option String := none
  service_event_handler : Option (String × String) := none
  rpc : Bool := false
  callable : Bool := false
  deriving DecidableEq

/-- The class-level data of a component subclass that handler registration
and RPC dispatch inspect (`dir(self)` scan). -/
structure ComponentClass where
  attrs : List AttrTag := []
  deriving DecidableEq

/-- A live `Component`: id, parent back-reference, class data, reactive
`__state__`, and owned children (`__child_components__`, kept as ids). -/
structure Component where
  id : String
  parent_id : String
  cls : ComponentClass
  state : List (String × Value) := []
  children : List String := []
  deriving DecidableEq

/-- A `SessionHandler`: the component table, outbound message queue
(`msg_queue`), inbound event queue (event names), event handler lists
(flattened, in registration order), store-update handler dict, and the
broker.  Background task bookkeeping and the websocket itself are not state
the claims depend on; spawned tasks are modelled at their point of effect. -/
structure Session where
  id : String
  components : List (String × Component) := []
  msg_queue : List Message := []
  event_queue : List String := []
  event_handlers : List (String × HandlerRef) := []
  store_update_handlers : List ((String × String) × HandlerRef) := []
  pubsub : PubSub := {}
  deriving DecidableEq

/-- Remove the first occurrence of a pair (Python `list.remove`; absent
handlers would raise ValueError, a path no claim exercises). -/
def removeFirstPair : List (String × HandlerRef) → String × HandlerRef →
    List (String × HandlerRef)
  | [], _ => []
  | x :: rest, y => if x = y then rest else x :: removeFirstPair rest y

namespace Session

/-- `SessionHandler.register_event_handler` (defaultdict(list) append). -/
def register_event_handler (sess : Session) (event : String) (h : HandlerRef) : Session :=
  { sess with event_handlers := sess.event_handlers ++ [(event, h)] }

/-- `SessionHandler.remove_event_handler` (list.remove of the handler from
the event's list). -/
def remove_event_handler (sess : Session) (event : String) (h : HandlerRef) : Session :=
  { sess with event_handlers := removeFirstPair sess.event_handlers (event, h) }

/-- `SessionHandler.register_store_update_handler`. -/
def register_store_update_handler (sess : Session) (id store : String)
    (h : HandlerRef) : Session :=
  { sess with store_update_handlers := aset sess.store_update_handlers (id, store) h }

/-- `SessionHandler.remove_store_update_handler` (`del`). -/
def remove_store_update_handler (sess : Session) (id store : String) : Session :=
  { sess with store_update_handlers := aerase sess.store_update_handlers (id, store) }

/-- Handlers registered for an event name, in registration order. -/
def handlersFor (sess : Session) (event : String) : List HandlerRef :=
  (sess.event_handlers.filter (fun eh => eh.1 = event)).map Prod.snd

/-- State entry of a component in the session table. -/
def stateOf (sess : Session) (comp_id name : String) : Option Value :=
  (alookup sess.components comp_id).bind (fun comp => alookup comp.state name)

/-- `SessionHandler.send_msg` (queue for the strictly-FIFO outbound loop). -/
def send_msg (sess : Session) (msg : Message) : Session :=
  { sess with msg_queue := sess.msg_queue ++ [msg] }

/-- `SessionHandler.update_store`: enqueue the
`('store-value', comp_id, store_name)` message carrying the new value. -/
def update_store (sess : Session) (comp_id store_name : String) (value : Value) : Session :=
  send_msg sess { topic := .path ["store-value", comp_id, store_name], content := value }

end Session

/-- One attribute of the `_register_handlers` scan: an `event_handler` tag
registers with the session's event table, a `store_update_handler` tag with
the store table, and a `service_event_handler` tag subscribes
`"<session id>/<component id>"` to `"$Service/<service>"` / event on the
broker. -/
def registerAttr (comp : Component) (sess : Session) (a : AttrTag) : Session :=
  let sess := match a.event_handler with
    | some ev => sess.register_event_handler ev (comp.id, a.name)
    | none => sess
  let sess := match a.store_update_handler with
    | some store => sess.register_store_update_handler comp.id store (comp.id, a.name)
    | none => sess
  match a.service_event_handler with
  | some (ev, svc) =>
    { sess with pubsub :=
        sess.pubsub.subscribe (sess.id ++ "/" ++ comp.id) ("$Service/" ++ svc) ev }
  | none => sess

/-- `Component._register_handlers`: register the system `$session_connect` /
`$session_disconnect` handlers (`on_connect` / `on_disconnect`), then scan the
attributes with `registerAttr`.  (The component-local handler table dies with
the object and is not tracked.) -/
def registerHandlers (sess : Session) (comp : Component) : Session :=
  let sess := sess.register_event_handler "$session_connect" (comp.id, "on_connect")
  let sess := sess.register_event_handler "$session_disconnect" (comp.id, "on_disconnect")
  comp.cls.attrs.foldl (registerAttr comp) sess

/-- One attribute of the `_remove_handlers` scan. -/
def removeAttr (comp : Component) (sess : Session) (a : AttrTag) : Session :=
  let sess := match a.event_handler with
    | some ev => sess.remove_event_handler ev (comp.id, a.name)
    | none => sess
  match a.store_update_handler with
  | some store => sess.remove_store_update_handler comp.id store
  | none => sess

/-- `Component._remove_handlers`: scan the attributes and deregister
`event_handler` and `store_update_handler` tags.  The system
`$session_connect` / `$session_disconnect` registrations carry the tag
`$event_handler`, not `event_handler`, so this scan does not touch them. -/
def removeHandlers (sess : Session) (comp : Component) : Session :=
  comp.cls.attrs.foldl (removeAttr comp) sess

/-- `Component.__destroy__`: run the user `on_destroy` hook (a no-op in the
base class), `_remove_handlers`, then `self.__session.pubsub.quit(self.id)` —
note the argument is the bare component id, not the
`"<session id>/<component id>"` key used at registration time. -/
def componentDestroy (sess : Session) (comp : Component) : Session :=
  let sess := removeHandlers sess comp
  { sess with pubsub := sess.pubsub.quit comp.id none }

namespace Session

/-- `SessionHandler.add_component`: resolve the class, construct the
component (whose `__init__` runs `_register_handlers`), register its queue
with the broker under `f'{self.id}/{component.id}'`, merge the props into its
state, run the post-construction hooks, insert it into the table, then fetch
the parent and append the child — a `KeyError` at either dict lookup
propagates, leaving all mutations made so far in place. -/
def add_component (compMap : List (String × ComponentClass)) (sess : Session)
    (comp_id parent_id comp_type : String) (props : List (String × Value)) :
    Option PyErr × Session :=
  match alookup compMap comp_type with
  | none => (some .keyError, sess)
  | some cls =>
    let comp : Component := { id := comp_id, parent_id := parent_id, cls := cls }
    let sess := registerHandlers sess comp
    let sess := { sess with pubsub := sess.pubsub.register (sess.id ++ "/" ++ comp_id) [] }
    let comp := { comp with state := props.foldl (fun st kv => aset st kv.1 kv.2) comp.state }
    let sess := { sess with components := aset sess.components comp_id comp }
    match alookup sess.components parent_id with
    | none => (some .keyError, sess)
    | some parent =>
      let parent := { parent with children := parent.children ++ [comp_id] }
      (none, { sess with components := aset sess.components parent_id parent })

/-- `SessionHandler.destroy_component`: `await component.__destroy__()` then
delete the table entry. -/
def destroy_component (sess : Session) (comp_id : String) : Option PyErr × Session :=
  match alookup sess.components comp_id with
  | none => (some .keyError, sess)
  | some comp =>
    let sess := componentDestroy sess comp
    (none, { sess with components := aerase sess.components comp_id })

/-- The property setter built by `Component.__make_property`: write the
component's `__state__` and unconditionally `session.update_store` the new
value.  (The write goes through the object; a component no longer in the
table still triggers the outbound message.) -/
def propertySet (sess : Session) (comp_id name : String) (value : Value) : Session :=
  let sess := match alookup sess.components comp_id with
    | some comp =>
      let comp := { comp with state := aset comp.state name value }
      { sess with components := aset sess.components comp_id comp }
    | none => sess
  sess.update_store comp_id name value

/-- `SessionHandler.exec_update_store_handler`, run inside its own task: look
up the handler and assign its return value (`upd h value`) to the component's
state.  A `KeyError` here is confined to the task. -/
def exec_update_store_handler (upd : HandlerRef → Value → Value) (sess : Session)
    (comp_id store_name : String) (value : Value) : Session :=
  match alookup sess.store_update_handlers (comp_id, store_name),
        alookup sess.components comp_id with
  | some h, some comp =>
    let comp := { comp with state := aset comp.state store_name (upd h value) }
    { sess with components := aset sess.components comp_id comp }
  | _, _ => sess

/-- `SessionHandler.set_store`: if an update handler is registered for
`(comp_id, store_name)`, spawn `exec_update_store_handler` (modelled by its
completed effect, with no error surfacing in the calling loop); otherwise
assign the value directly — `self.components[comp_id]` raises `KeyError` for
an unknown component. -/
def set_store (upd : HandlerRef → Value → Value) (sess : Session)
    (comp_id store_name : String) (value : Value) : Option PyErr × Session :=
  match alookup sess.store_update_handlers (comp_id, store_name) with
  | some _ => (none, exec_update_store_handler upd sess comp_id store_name value)
  | none =>
    match alookup sess.components comp_id with
    | none => (some .keyError, sess)
    | some comp =>
      let comp := { comp with state := aset comp.state store_name value }
      (none, { sess with components := aset sess.components comp_id comp })

end Session

/-- `Component.__exec_rpc__`: `getattr(self, rpc_name)`; any callable
attribute is awaited with the arguments — the `rpc` flag is never consulted —
and a missing or non-callable attribute raises `AttributeError`.  `rpcRun`
supplies the result of the underlying user method. -/
def execRpcMethod (rpcRun : String → String → List Value → Value)
    (comp : Component) (rpc_name : String) (args : List Value) : Except PyErr Value :=
  match comp.cls.attrs.find? (fun a => a.name = rpc_name) with
  | some a =>
    if a.callable then .ok (rpcRun comp.id rpc_name args)
    else .error .attributeError
  | none => .error .attributeError

namespace Session

/-- `SessionHandler.exec_rpc`, the body of the spawned `$exec_rpc` task:
delegate to the component, then `send_msg` the `rpc-result` message.  An
exception (unknown component, or `__exec_rpc__` raising) propagates out of
the task before `send_msg`, so no message is enqueued. -/
def exec_rpc (rpcRun : String → String → List Value → Value) (sess : Session)
    (req_id : Option Value) (comp_id rpc_name : String) (args : List Value) :
    Option PyErr × Session :=
  match alookup sess.components comp_id with
  | none => (some .keyError, sess)
  | some comp =>
    match execRpcMethod rpcRun comp rpc_name args with
    | .error e => (some e, sess)
    | .ok v =>
      (none, sess.send_msg { topic := .plain "rpc-result", content := v, req_id := req_id })

end Session

/-- Inbound wire messages, after `json.loads` and the topic switch in
`SessionHandler.handle`. -/
inductive WireMsg where
  | addComponent (req_id : Option Value) (comp_id parent_id comp_type : String)
      (props : List (String × Value))
  | execRpc (req_id : Option Value) (comp_id rpc_name : String) (args : List Value)
  | storeSet (comp_id store_name : String) (value : Value)
  | destroyComponent (comp_id : String)

/-- One iteration of the `async for msg in self.ws` body: `add-component` and
`store-set` run inline (their exceptions abort the loop); `exec-rpc` and
`destroy-component` are spawned as independent tasks, so at the loop's step
the session state is unchanged and no exception can surface here. -/
def handleMsg (compMap : List (String × ComponentClass))
    (upd : HandlerRef → Value → Value) (sess : Session) :
    WireMsg → Option PyErr × Session
  | .addComponent _ comp_id parent_id comp_type props =>
    sess.add_component compMap comp_id parent_id comp_type props
  | .execRpc _ _ _ _ => (none, sess)
  | .storeSet comp_id store_name value => sess.set_store upd comp_id store_name value
  | .destroyComponent _ => (none, sess)

/-- The message loop of `SessionHandler.handle` without the enclosing
try/finally: process messages until one raises. -/
def handleMsgs (compMap : List (String × ComponentClass))
    (upd : HandlerRef → Value → Value) : Session → List WireMsg → Session
  | sess, [] => sess
  | sess, m :: rest =>
    match handleMsg compMap upd sess m with
    | (some _, sess') => sess'
    | (none, sess') => handleMsgs compMap upd sess' rest

/-- `SessionHandler.handle`: enqueue `$session_connect`, run the message loop
(the `except` clause swallows any exception, ending the loop), then in
`finally` enqueue `$session_disconnect`. -/
def handle (compMap : List (String × ComponentClass))
    (upd : HandlerRef → Value → Value) (sess : Session) (msgs : List WireMsg) : Session :=
  let sess := { sess with event_queue := sess.event_queue ++ ["$session_connect"] }
  let sess := handleMsgs compMap upd sess msgs
  { sess with event_queue := sess.event_queue ++ ["$session_disconnect"] }

/-! ### Heap invariants -/

/-- Binary min-heap ordering of the backing list: every non-root position is
no smaller (in priority) than its parent `(i - 1) / 2`. -/
def IsHeap (l : List ServiceEvent) : Prop :=
  ∀ i, i < l.length → 0 < i →
    (hget l ((i - 1) / 2)).priority ≤ (hget l i).priority

/-- Loop invariant of `_siftdown` (bubble-up), with position `pos` treated as
a hole for `newitem`: (1) heap edges not incident to the hole are ordered;
(2) the hole's parent is already ≤ the hole's children; (3) `newitem` is ≤
the hole's children. -/
def UpInv (l : List ServiceEvent) (pos : Nat) (newitem : ServiceEvent) : Prop :=
  (∀ i, i < l.length → 0 < i → i ≠ pos → (i - 1) / 2 ≠ pos →
    (hget l ((i - 1) / 2)).priority ≤ (hget l i).priority) ∧
  (∀ c, c < l.length → 0 < pos → (c = 2 * pos + 1 ∨ c = 2 * pos + 2) →
    (hget l ((pos - 1) / 2)).priority ≤ (hget l c).priority) ∧
  (∀ c, c < l.length → (c = 2 * pos + 1 ∨ c = 2 * pos + 2) →
    newitem.priority ≤ (hget l c).priority)

/-- Loop invariant of `_siftup` (walk the hole down): heap edges not incident
to the hole are ordered, and the hole's parent is ≤ the hole's children. -/
def DownInv (l : List ServiceEvent) (pos : Nat) : Prop :=
  (∀ i, i < l.length → 0 < i → i ≠ pos → (i - 1) / 2 ≠ pos →
    (hget l ((i - 1) / 2)).priority ≤ (hget l i).priority) ∧
  (∀ c, c < l.length → 0 < pos → (c = 2 * pos + 1 ∨ c = 2 * pos + 2) →
    (hget l ((pos - 1) / 2)).priority ≤ (hget l c).priority)

/-! ### Concrete fixtures used by witnesses and counterexamples -/

/-- A broker with one subscriber `"a"` of topic `e` on channel `ch`, holding
an empty registered queue. -/
def psB : PubSub :=
  { subscribers := [("ch", [("e", ["a"])])],
    message_queues := [("a", [])],
    room_subscriptions := [] }

/-- An event named `e`. -/
def evE : ServiceEvent := { name := "e", source := "svc" }

/-- Events named `e` carrying a data tag and a priority. -/
def evP (tag : String) (p : Int) : ServiceEvent :=
  { name := "e", source := "svc", data := .str tag, priority := p }

/-- A broker in which `"id"` has a registered queue, has joined room `room`
of channel `ch` while the channel had no topics, and `"other"` subscribed to
topic `t` afterwards. -/
def psLateTopic : PubSub :=
  PubSub.subscribe (PubSub.join_room (PubSub.register {} "id" []) "id" "ch" "room")
    "other" "ch" "t"

/-- A broker in which `"s"` subscribed to `ch/t` and registered a queue, and
no room was ever created. -/
def psQuit : PubSub := PubSub.register (PubSub.subscribe {} "s" "ch" "t") "s" []

/-- A component class with one service-event handler, one local event
handler and one store-update handler. -/
def widgetClass : ComponentClass :=
  { attrs :=
      [{ name := "on_msg", service_event_handler := some ("msg", "Chat"), callable := true },
       { name := "on_click", event_handler := some "click", callable := true },
       { name := "check_count", store_update_handler := some "count", callable := true }] }

/-- The component-type registry used by the session fixtures. -/
def compMapW : List (String × ComponentClass) := [("Widget", widgetClass)]

/-- The pre-existing root component of the session fixtures. -/
def rootComponent : Component := { id := "root", parent_id := "", cls := { attrs := [] } }

/-- A session holding only the root component. -/
def sessRoot : Session := { id := "S", components := [("root", rootComponent)] }

/-- The session after `add_component("c1", "root", "Widget", {})`. -/
def sessAfterAdd : Session :=
  (Session.add_component compMapW sessRoot "c1" "root" "Widget" []).2

/-- The session after subsequently destroying `c1`. -/
def sessAfterDestroy : Session := (Session.destroy_component sessAfterAdd "c1").2

/-- A component class whose only method is callable but not flagged `rpc`. -/
def helperClass : ComponentClass :=
  { attrs := [{ name := "helper", rpc := false, callable := true }] }

/-- A live instance of `helperClass`. -/
def compHelper : Component := { id := "c1", parent_id := "root", cls := helperClass }

/-- A session holding the helper component. -/
def sessHelper : Session := { id := "S", components := [("c1", compHelper)] }

/-- A trivial RPC method body used in concrete runs. -/
def rpcNil : String → String → List Value → Value := fun _ _ _ => .nil

/-- A trivial store-update handler behavior used in concrete runs. -/
def updNil : HandlerRef → Value → Value := fun _ _ => .nil

/-! ### Theorems -/

/-! #### Heap lemmas -/

theorem ServiceEvent.lt_iff (a b : ServiceEvent) :
    a.lt b = true ↔ a.priority < b.priority := by
  simp [ServiceEvent.lt]

theorem hget_set_eq (l : List ServiceEvent) (i : Nat) (x : ServiceEvent)
    (h : i < l.length) : hget (l.set i x) i = x := by
  simp [hget, List.getD_eq_getElem?_getD, List.getElem?_set, h]

theorem hget_set_ne (l : List ServiceEvent) {i j : Nat} (x : ServiceEvent)
    (h : i ≠ j) : hget (l.set i x) j = hget l j := by
  simp [hget, List.getD_eq_getElem?_getD, List.getElem?_set, h]

theorem hget_append_left (l l' : List ServiceEvent) {i : Nat} (h : i < l.length) :
    hget (l ++ l') i = hget l i := by
  simp [hget, List.getD_eq_getElem?_getD, List.getElem?_append, h]

theorem hget_concat_self (l : List ServiceEvent) (x : ServiceEvent) :
    hget (l ++ [x]) l.length = x := by
  simp [hget, List.getD_eq_getElem?_getD, List.getElem?_concat_length]

theorem hget_mem (l : List ServiceEvent) (i : Nat) (h : i < l.length) :
    hget l i ∈ l := by
  rw [hget, List.getD_eq_getElem l default h]
  exact List.getElem_mem h

theorem exists_hget_of_mem {l : List ServiceEvent} {y : ServiceEvent} (h : y ∈ l) :
    ∃ i, i < l.length ∧ hget l i = y := by
  obtain ⟨n, hn, he⟩ := List.mem_iff_getElem.mp h
  exact ⟨n, hn, by rw [hget, List.getD_eq_getElem l default hn, he]⟩

theorem hget_dropLast (l : List ServiceEvent) {i : Nat} (h : i < l.length - 1) :
    hget l.dropLast i = hget l i := by
  have h1 : i < l.dropLast.length := by simp [List.length_dropLast]; omega
  have h2 : i < l.length := by omega
  rw [hget, List.getD_eq_getElem _ default h1, hget, List.getD_eq_getElem _ default h2]
  exact List.getElem_dropLast l i h1

theorem siftdownAuxF_length :
    ∀ (fuel : Nat) (l : List ServiceEvent) (startpos pos : Nat)
      (newitem : ServiceEvent),
      (siftdownAuxF fuel l startpos pos newitem).length = l.length := by
  intro fuel
  induction fuel with
  | zero => intro l s p n; exact List.length_set l p n
  | succ fuel ih =>
    intro l s p n
    rw [siftdownAuxF]
    split
    · dsimp only
      split
      · rw [ih, List.length_set]
      · exact List.length_set l p n
    · exact List.length_set l p n

theorem siftdownAux_length (l : List ServiceEvent) (startpos pos : Nat)
    (newitem : ServiceEvent) :
    (siftdownAux l startpos pos newitem).length = l.length :=
  siftdownAuxF_length pos l startpos pos newitem

theorem siftupAuxF_length :
    ∀ (fuel : Nat) (l : List ServiceEvent) (startpos pos : Nat)
      (newitem : ServiceEvent),
      (siftupAuxF fuel l startpos pos newitem).length = l.length := by
  intro fuel
  induction fuel with
  | zero =>
    intro l s p n
    rw [siftupAuxF, siftdownAux_length, List.length_set]
  | succ fuel ih =>
    intro l s p n
    rw [siftupAuxF]
    split
    · dsimp only
      rw [ih, List.length_set]
    · rw [siftdownAux_length, List.length_set]

theorem siftupAux_length (l : List ServiceEvent) (startpos pos : Nat)
    (newitem : ServiceEvent) :
    (siftupAux l startpos pos newitem).length = l.length :=
  siftupAuxF_length l.length l startpos pos newitem

theorem heappush_length (heap : List ServiceEvent) (item : ServiceEvent) :
    (heappush heap item).length = heap.length + 1 := by
  rw [heappush, siftdown, siftdownAux_length]
  simp

theorem heappop_length {heap rest : List ServiceEvent} {e : ServiceEvent}
    (h : heappop heap = some (e, rest)) : rest.length + 1 = heap.length := by
  cases heap with
  | nil => simp [heappop] at h
  | cons a t =>
    simp only [heappop] at h
    split at h
    · cases h
      rename_i hemp
      simp only [List.isEmpty_iff] at hemp
      have := congrArg List.length hemp
      simp only [List.length_dropLast, List.length_cons, List.length_nil] at this
      have ht : t.length = 0 := by omega
      obtain rfl := List.length_eq_zero.mp ht
      simp
    · cases h
      rw [siftup, siftupAux_length, List.length_set, List.length_dropLast]
      simp

theorem mem_siftdownAuxF :
    ∀ (fuel : Nat) (l : List ServiceEvent) (startpos pos : Nat)
      (newitem y : ServiceEvent),
      pos < l.length →
      y ∈ siftdownAuxF fuel l startpos pos newitem → y ∈ l ∨ y = newitem := by
  intro fuel
  induction fuel with
  | zero =>
    intro l s p n y hp hy
    rcases List.mem_or_eq_of_mem_set hy with h | h
    · exact Or.inl h
    · exact Or.inr h
  | succ fuel ih =>
    intro l s p n y hp hy
    rw [siftdownAuxF] at hy
    split at hy
    · dsimp only at hy
      split at hy
      · rcases ih _ _ _ _ y (by rw [List.length_set]; omega) hy with h | h
        · rcases List.mem_or_eq_of_mem_set h with h | h
          · exact Or.inl h
          · exact Or.inl (h ▸ hget_mem l ((p - 1) / 2) (by omega))
        · exact Or.inr h
      · rcases List.mem_or_eq_of_mem_set hy with h | h
        · exact Or.inl h
        · exact Or.inr h
    · rcases List.mem_or_eq_of_mem_set hy with h | h
      · exact Or.inl h
      · exact Or.inr h

theorem mem_siftdownAux {l : List ServiceEvent} {startpos pos : Nat}
    {newitem y : ServiceEvent} (hpos : pos < l.length)
    (hy : y ∈ siftdownAux l startpos pos newitem) : y ∈ l ∨ y = newitem :=
  mem_siftdownAuxF pos l startpos pos newitem y hpos hy

theorem mem_siftupAuxF :
    ∀ (fuel : Nat) (l : List ServiceEvent) (startpos pos : Nat)
      (newitem y : ServiceEvent),
      pos < l.length →
      y ∈ siftupAuxF fuel l startpos pos newitem → y ∈ l ∨ y = newitem := by
  intro fuel
  induction fuel with
  | zero =>
    intro l s p n y hp hy
    rw [siftupAuxF] at hy
    rcases @mem_siftdownAux (l.set p n) s p n y (by rw [List.length_set]; omega) hy with h | h
    · rcases List.mem_or_eq_of_mem_set h with h | h
      · exact Or.inl h
      · exact Or.inr h
    · exact Or.inr h
  | succ fuel ih =>
    intro l s p n y hp hy
    rw [siftupAuxF] at hy
    split at hy
    · rename_i hchild
      dsimp only at hy
      have main : ∀ cp : Nat, cp < l.length →
          y ∈ siftupAuxF fuel (l.set p (hget l cp)) s cp n →
          cp < (l.set p (hget l cp)).length →
          y ∈ l ∨ y = n := by
        intro cp h2 hmem hcp
        rcases ih _ _ _ _ y hcp hmem with h | h
        · rcases List.mem_or_eq_of_mem_set h with h | h
          · exact Or.inl h
          · exact Or.inl (h ▸ hget_mem l cp h2)
        · exact Or.inr h
      split at hy
      · split at hy
        · exact main _ (by omega) hy (by rw [List.length_set]; omega)
        · exact main _ (by omega) hy (by rw [List.length_set]; omega)
      · exact main _ (by omega) hy (by rw [List.length_set]; omega)
    · rcases @mem_siftdownAux (l.set p n) s p n y (by rw [List.length_set]; omega) hy with h | h
      · rcases List.mem_or_eq_of_mem_set h with h | h
        · exact Or.inl h
        · exact Or.inr h
      · exact Or.inr h

theorem mem_siftupAux {l : List ServiceEvent} {startpos pos : Nat}
    {newitem y : ServiceEvent} (hpos : pos < l.length)
    (hy : y ∈ siftupAux l startpos pos newitem) : y ∈ l ∨ y = newitem :=
  mem_siftupAuxF l.length l startpos pos newitem y hpos hy

theorem mem_heappush {heap : List ServiceEvent} {item y : ServiceEvent}
    (hy : y ∈ heappush heap item) : y ∈ heap ∨ y = item := by
  rw [heappush, siftdown] at hy
  rcases @mem_siftdownAux (heap ++ [item]) 0 heap.length (hget (heap ++ [item]) heap.length) y (by simp) hy with h | h
  · rcases List.mem_append.mp h with h | h
    · exact Or.inl h
    · simp at h
      exact Or.inr h
  · rw [hget_concat_self] at h
    exact Or.inr h

theorem mem_heappop {heap rest : List ServiceEvent} {e y : ServiceEvent}
    (h : heappop heap = some (e, rest)) (hy : y ∈ rest) : y ∈ heap := by
  cases heap with
  | nil => simp [heappop] at h
  | cons a t =>
    simp only [heappop] at h
    split at h
    · cases h
      simp at hy
    · cases h
      rename_i hemp
      have hne : (a :: t).dropLast.length ≠ 0 := by
        intro h0
        apply hemp
        rw [List.isEmpty_iff, ← List.length_eq_zero]
        exact h0
      rw [siftup] at hy
      have hlen : 0 < ((a :: t).dropLast.set 0 (hget (a :: t) ((a :: t).length - 1))).length := by
        rw [List.length_set]
        omega
      have hsub : ∀ z, z ∈ (a :: t).dropLast.set 0 (hget (a :: t) ((a :: t).length - 1)) →
          z ∈ a :: t := by
        intro z hz
        rcases List.mem_or_eq_of_mem_set hz with h2 | h2
        · exact List.mem_of_mem_dropLast h2
        · rw [h2]
          exact hget_mem (a :: t) ((a :: t).length - 1) (by simp)
      rcases mem_siftupAux hlen hy with h2 | h2
      · exact hsub _ h2
      · rw [h2]
        exact hsub _ (hget_mem _ 0 hlen)

theorem siftdownAuxF_isHeap :
    ∀ (fuel pos : Nat) (l : List ServiceEvent) (newitem : ServiceEvent),
      pos ≤ fuel → pos < l.length → UpInv l pos newitem →
      IsHeap (siftdownAuxF fuel l 0 pos newitem) := by
  intro fuel
  induction fuel with
  | zero =>
    intro pos l newitem hf hpos hinv
    obtain ⟨ha, hb, hc⟩ := hinv
    have hp0 : pos = 0 := by omega
    subst hp0
    rw [siftdownAuxF]
    intro i hi hi0
    rw [List.length_set] at hi
    by_cases hchild : (i - 1) / 2 = 0
    · rw [hchild, hget_set_eq l 0 _ hpos, @hget_set_ne l 0 i _ (by omega)]
      exact hc i hi (by omega)
    · rw [@hget_set_ne l 0 i _ (by omega),
        @hget_set_ne l 0 ((i - 1) / 2) _ (fun he => hchild he.symm)]
      exact ha i hi hi0 (by omega) hchild
  | succ fuel ih =>
    intro pos l newitem hf hpos hinv
    obtain ⟨ha, hb, hc⟩ := hinv
    rw [siftdownAuxF]
    split
    · rename_i hpos0
      dsimp only
      split
      · rename_i hlt
        rw [ServiceEvent.lt_iff] at hlt
        apply ih ((pos - 1) / 2) _ _ (by omega) (by rw [List.length_set]; omega)
        refine ⟨?_, ?_, ?_⟩
        · intro i hi hi0 hne hnp
          rw [List.length_set] at hi
          by_cases hipos : i = pos
          · exact absurd (by omega : (i - 1) / 2 = (pos - 1) / 2) (hipos ▸ hnp)
          · by_cases hchild : (i - 1) / 2 = pos
            · rw [hchild, hget_set_eq l pos _ hpos,
                @hget_set_ne l pos i _ (Ne.symm hipos)]
              exact hb i hi hpos0 (by omega)
            · rw [@hget_set_ne l pos i _ (Ne.symm hipos),
                @hget_set_ne l pos ((i - 1) / 2) _ (fun he => hchild he.symm)]
              exact ha i hi hi0 hipos hchild
        · intro c hcl hpp hcc
          rw [List.length_set] at hcl
          rw [@hget_set_ne l pos (((pos - 1) / 2 - 1) / 2) _ (by omega)]
          by_cases hcpos : c = pos
          · rw [hcpos, hget_set_eq l pos _ hpos]
            exact ha ((pos - 1) / 2) (by omega) (by omega) (by omega) (by omega)
          · rw [@hget_set_ne l pos c _ (Ne.symm hcpos)]
            have h1 := ha ((pos - 1) / 2) (by omega) (by omega) (by omega) (by omega)
            have h2 := ha c hcl (by omega) hcpos (by omega)
            have hcc2 : (c - 1) / 2 = (pos - 1) / 2 := by omega
            rw [hcc2] at h2
            omega
        · intro c hcl hcc
          rw [List.length_set] at hcl
          by_cases hcpos : c = pos
          · rw [hcpos, hget_set_eq l pos _ hpos]
            omega
          · rw [@hget_set_ne l pos c _ (Ne.symm hcpos)]
            have h2 := ha c hcl (by omega) hcpos (by omega)
            have hcc2 : (c - 1) / 2 = (pos - 1) / 2 := by omega
            rw [hcc2] at h2
            omega
      · rename_i hnlt
        rw [ServiceEvent.lt_iff] at hnlt
        intro i hi hi0
        rw [List.length_set] at hi
        by_cases hipos : i = pos
        · subst hipos
          rw [hget_set_eq l i _ hpos, @hget_set_ne l i ((i - 1) / 2) _ (by omega)]
          omega
        · by_cases hchild : (i - 1) / 2 = pos
          · rw [hchild, hget_set_eq l pos _ hpos, @hget_set_ne l pos i _ (Ne.symm hipos)]
            exact hc i hi (by omega)
          · rw [@hget_set_ne l pos i _ (Ne.symm hipos),
              @hget_set_ne l pos ((i - 1) / 2) _ (fun he => hchild he.symm)]
            exact ha i hi hi0 hipos hchild
    · rename_i hpos0
      have hp0 : pos = 0 := by omega
      subst hp0
      intro i hi hi0
      rw [List.length_set] at hi
      by_cases hchild : (i - 1) / 2 = 0
      · rw [hchild, hget_set_eq l 0 _ hpos, @hget_set_ne l 0 i _ (by omega)]
        exact hc i hi (by omega)
      · rw [@hget_set_ne l 0 i _ (by omega),
          @hget_set_ne l 0 ((i - 1) / 2) _ (fun he => hchild he.symm)]
        exact ha i hi hi0 (by omega) hchild

theorem siftdownAux_isHeap :
    ∀ (pos : Nat) (l : List ServiceEvent) (newitem : ServiceEvent),
      pos < l.length → UpInv l pos newitem →
      IsHeap (siftdownAux l 0 pos newitem) :=
  fun pos l newitem hpos hinv =>
    siftdownAuxF_isHeap pos pos l newitem (Nat.le_refl pos) hpos hinv

theorem isHeap_root_min {l : List ServiceEvent} (hl : IsHeap l) :
    ∀ i, i < l.length → (hget l 0).priority ≤ (hget l i).priority := by
  intro i
  induction i using Nat.strong_induction_on with
  | _ i ih =>
    intro hi
    cases Nat.eq_zero_or_pos i with
    | inl h0 => subst h0; exact le_refl _
    | inr hpos =>
      have hp := hl i hi hpos
      have hq := ih ((i - 1) / 2) (by omega) (by omega)
      omega

theorem siftupAuxF_isHeap :
    ∀ (fuel : Nat) (l : List ServiceEvent) (pos : Nat) (newitem : ServiceEvent),
      l.length - pos ≤ fuel → pos < l.length → DownInv l pos →
      IsHeap (siftupAuxF fuel l 0 pos newitem) := by
  intro fuel
  induction fuel with
  | zero => intro l pos newitem hk hpos hinv; omega
  | succ fuel ih =>
    intro l pos newitem hk hpos hinv
    obtain ⟨ha, hb⟩ := hinv
    rw [siftupAuxF]
    split
    · rename_i hchild
      dsimp only
      have main : ∀ cp, (cp = 2 * pos + 1 ∨ cp = 2 * pos + 2) → cp < l.length →
          (hget l cp).priority ≤ (hget l (2 * pos + 1)).priority →
          (2 * pos + 2 < l.length →
            (hget l cp).priority ≤ (hget l (2 * pos + 2)).priority) →
          IsHeap (siftupAuxF fuel (l.set pos (hget l cp)) 0 cp newitem) := by
        intro cp hcp hcplt hmin1 hmin2
        apply ih _ _ _ (by rw [List.length_set]; omega) (by rw [List.length_set]; omega)
        refine ⟨?_, ?_⟩
        · intro i hi hi0 hne hnp
          rw [List.length_set] at hi
          by_cases hipos : i = pos
          · subst hipos
            rw [hget_set_eq l i _ hpos, @hget_set_ne l i ((i - 1) / 2) _ (by omega)]
            exact hb cp hcplt hi0 hcp
          · by_cases hchild2 : (i - 1) / 2 = pos
            · rw [hchild2, hget_set_eq l pos _ hpos,
                @hget_set_ne l pos i _ (Ne.symm hipos)]
              have hii : i = 2 * pos + 1 ∨ i = 2 * pos + 2 := by omega
              rcases hii with hii | hii
              · rw [hii]; exact hmin1
              · rw [hii]; exact hmin2 (by omega)
            · rw [@hget_set_ne l pos i _ (Ne.symm hipos),
                @hget_set_ne l pos ((i - 1) / 2) _ (fun he => hchild2 he.symm)]
              exact ha i hi hi0 hipos hchild2
        · intro c hcl hcp0 hcc
          rw [List.length_set] at hcl
          have hcparent : (cp - 1) / 2 = pos := by omega
          rw [hcparent, hget_set_eq l pos _ hpos, @hget_set_ne l pos c _ (by omega)]
          have h2 := ha c hcl (by omega) (by omega) (by omega)
          have hc2 : (c - 1) / 2 = cp := by omega
          rw [hc2] at h2
          exact h2
      split
      · rename_i hr
        split
        · rename_i hnl
          rw [ServiceEvent.lt_iff] at hnl
          exact main (2 * pos + 2) (Or.inr rfl) (by omega) (by omega) (fun _ => le_refl _)
        · rename_i hnl
          rw [ServiceEvent.lt_iff] at hnl
          exact main (2 * pos + 1) (Or.inl rfl) (by omega) (le_refl _) (fun _ => by omega)
      · rename_i hr
        exact main (2 * pos + 1) (Or.inl rfl) (by omega) (le_refl _) (fun h => absurd h hr)
    · rename_i hleaf
      apply siftdownAux_isHeap pos _ _ (by rw [List.length_set]; omega)
      refine ⟨?_, ?_, ?_⟩
      · intro i hi hi0 hne hnp
        rw [List.length_set] at hi
        rw [@hget_set_ne l pos i _ (Ne.symm hne),
          @hget_set_ne l pos ((i - 1) / 2) _ (fun he => hnp he.symm)]
        exact ha i hi hi0 hne hnp
      · intro c hcl hp0 hcc
        rw [List.length_set] at hcl
        omega
      · intro c hcl hcc
        rw [List.length_set] at hcl
        omega

theorem siftupAux_isHeap (l : List ServiceEvent) (pos : Nat)
    (newitem : ServiceEvent) (hpos : pos < l.length) (hinv : DownInv l pos) :
    IsHeap (siftupAux l 0 pos newitem) :=
  siftupAuxF_isHeap l.length l pos newitem (by omega) hpos hinv

theorem isHeap_nil : IsHeap [] := by
  intro i hi
  simp at hi

theorem heappush_isHeap {heap : List ServiceEvent} (hh : IsHeap heap)
    (item : ServiceEvent) : IsHeap (heappush heap item) := by
  rw [heappush, siftdown, hget_concat_self]
  apply siftdownAux_isHeap heap.length _ _ (by simp)
  refine ⟨?_, ?_, ?_⟩
  · intro i hi hi0 hne hnp
    rw [List.length_append] at hi
    simp only [List.length_cons, List.length_nil] at hi
    have hilt : i < heap.length := by omega
    rw [hget_append_left _ _ hilt, hget_append_left _ _ (by omega)]
    exact hh i hilt hi0
  · intro c hcl hp0 hcc
    rw [List.length_append] at hcl
    simp only [List.length_cons, List.length_nil] at hcl
    omega
  · intro c hcl hcc
    rw [List.length_append] at hcl
    simp only [List.length_cons, List.length_nil] at hcl
    omega

theorem heappop_some_isHeap {heap rest : List ServiceEvent} {e : ServiceEvent}
    (hh : IsHeap heap) (h : heappop heap = some (e, rest)) : IsHeap rest := by
  cases heap with
  | nil => simp [heappop] at h
  | cons a t =>
    simp only [heappop] at h
    split at h
    · cases h
      exact isHeap_nil
    · cases h
      rename_i hemp
      have hne : (a :: t).dropLast.length ≠ 0 := by
        intro h0
        apply hemp
        rw [List.isEmpty_iff, ← List.length_eq_zero]
        exact h0
      rw [siftup]
      apply siftupAux_isHeap _ _ _ (by rw [List.length_set]; omega)
      refine ⟨?_, ?_⟩
      · intro i hi hi0 hne2 hnp
        have hlc : (a :: t).length = t.length + 1 := rfl
        rw [List.length_set, List.length_dropLast, hlc] at hi
        rw [@hget_set_ne (a :: t).dropLast 0 i _ (by omega),
          @hget_set_ne (a :: t).dropLast 0 ((i - 1) / 2) _ (fun he => hnp he.symm)]
        rw [hget_dropLast (a :: t) (by rw [hlc]; omega),
          hget_dropLast (a :: t) (by rw [hlc]; omega)]
        exact hh i (by rw [hlc]; omega) hi0
      · intro c hcl hp0 hcc
        omega

theorem heappop_fst_mem {heap rest : List ServiceEvent} {e : ServiceEvent}
    (h : heappop heap = some (e, rest)) : e ∈ heap := by
  cases heap with
  | nil => simp [heappop] at h
  | cons a t =>
    simp only [heappop] at h
    split at h
    · cases h
      exact hget_mem (a :: t) ((a :: t).length - 1) (by simp)
    · cases h
      rename_i hemp
      have hne : (a :: t).dropLast.length ≠ 0 := by
        intro h0
        apply hemp
        rw [List.isEmpty_iff, ← List.length_eq_zero]
        exact h0
      have hnt : 0 < t.length := by
        rw [List.length_dropLast, List.length_cons] at hne
        omega
      rw [hget_dropLast (a :: t) (by rw [List.length_cons]; omega)]
      exact hget_mem (a :: t) 0 (by simp)

theorem heappop_min {heap rest : List ServiceEvent} {e : ServiceEvent}
    (hh : IsHeap heap) (h : heappop heap = some (e, rest)) :
    ∀ y ∈ rest, e.priority ≤ y.priority := by
  intro y hy
  obtain ⟨i, hi, he⟩ := exists_hget_of_mem (mem_heappop h hy)
  cases heap with
  | nil => simp [heappop] at h
  | cons a t =>
    have hroot := isHeap_root_min hh i hi
    simp only [heappop] at h
    split at h
    · cases h
      simp at hy
    · cases h
      rename_i hemp
      have hne : (a :: t).dropLast.length ≠ 0 := by
        intro h0
        apply hemp
        rw [List.isEmpty_iff, ← List.length_eq_zero]
        exact h0
      have hnt : 0 < t.length := by
        rw [List.length_dropLast, List.length_cons] at hne
        omega
      rw [hget_dropLast (a :: t) (by rw [List.length_cons]; omega)]
      rw [← he]
      exact hroot

theorem mem_drainFuel (k : Nat) :
    ∀ (heap : List ServiceEvent) (y : ServiceEvent),
      y ∈ drainFuel k heap → y ∈ heap := by
  induction k with
  | zero => intro heap y hy; simp [drainFuel] at hy
  | succ k ih =>
    intro heap y hy
    rw [drainFuel] at hy
    split at hy
    · simp at hy
    · rename_i e rest hp
      rcases List.mem_cons.mp hy with h | h
      · exact h ▸ heappop_fst_mem hp
      · exact mem_heappop hp (ih rest y h)

theorem drainFuel_sorted (k : Nat) :
    ∀ (heap : List ServiceEvent), IsHeap heap →
      List.Pairwise (fun a b : ServiceEvent => a.priority ≤ b.priority)
        (drainFuel k heap) := by
  induction k with
  | zero => intro heap hh; simp [drainFuel]
  | succ k ih =>
    intro heap hh
    rw [drainFuel]
    split
    · exact List.Pairwise.nil
    · rename_i e rest hp
      refine List.Pairwise.cons ?_ (ih rest (heappop_some_isHeap hh hp))
      intro y hy
      exact heappop_min hh hp y (mem_drainFuel k rest y hy)

theorem pushAll_isHeap (events : List ServiceEvent) : IsHeap (pushAll events) := by
  rw [pushAll]
  have main : ∀ (evs : List ServiceEvent) (q : List ServiceEvent), IsHeap q →
      IsHeap (evs.foldl heappush q) := by
    intro evs
    induction evs with
    | nil => intro q hq; exact hq
    | cons e rest ih => intro q hq; exact ih (heappush q e) (heappush_isHeap hq e)
  exact main events [] isHeap_nil

theorem drain_sorted {heap : List ServiceEvent} (hh : IsHeap heap) :
    List.Pairwise (fun a b : ServiceEvent => a.priority ≤ b.priority) (drain heap) :=
  drainFuel_sorted heap.length heap hh

/-! #### Association-list lemmas -/

theorem alookup_aset_self {A B : Type} [DecidableEq A] (l : List (A × B)) (k : A) (v : B) :
    alookup (aset l k v) k = some v := by
  induction l with
  | nil => simp [aset, alookup]
  | cons kv rest ih =>
    obtain ⟨k1, w⟩ := kv
    by_cases h : k1 = k
    · simp [aset, h, alookup]
    · simp [aset, h, alookup, ih]

theorem alookup_aset_ne {A B : Type} [DecidableEq A] (l : List (A × B)) {k k' : A} {v : B}
    (h : k ≠ k') : alookup (aset l k v) k' = alookup l k' := by
  induction l with
  | nil => simp [aset, alookup, h]
  | cons kv rest ih =>
    obtain ⟨k1, w⟩ := kv
    by_cases h1 : k1 = k
    · subst h1
      simp [aset, alookup, h]
    · by_cases h2 : k1 = k'
      · subst h2
        simp [aset, h1, alookup]
      · simp [aset, h1, alookup, h2, ih]

theorem alookup_aerase_self {A B : Type} [DecidableEq A] (l : List (A × B)) (k : A) :
    alookup (aerase l k) k = none := by
  induction l with
  | nil => rfl
  | cons kv rest ih =>
    obtain ⟨k1, w⟩ := kv
    by_cases h1 : k1 = k
    · simpa [aerase, List.filter_cons, h1] using ih
    · simpa [aerase, List.filter_cons, h1, alookup] using ih

theorem alookup_aerase_ne {A B : Type} [DecidableEq A] (l : List (A × B)) {k k' : A}
    (h : k ≠ k') : alookup (aerase l k) k' = alookup l k' := by
  induction l with
  | nil => rfl
  | cons kv rest ih =>
    obtain ⟨k1, w⟩ := kv
    by_cases h1 : k1 = k
    · subst h1
      have h2 : k1 ≠ k' := h
      simp [aerase, List.filter_cons, alookup, h2]
      simpa [aerase] using ih
    · by_cases h2 : k1 = k'
      · subst h2
        simp [aerase, List.filter_cons, h1, alookup]
      · simp [aerase, List.filter_cons, h1, alookup, h2]
        simpa [aerase] using ih

theorem alookup_append_single {A B : Type} [DecidableEq A] (l : List (A × B))
    (k : A) (v : B) (k' : A) :
    alookup (l ++ [(k, v)]) k' =
      match alookup l k' with
      | some w => some w
      | none => if k = k' then some v else none := by
  induction l with
  | nil => simp [alookup]
  | cons kv rest ih =>
    obtain ⟨k1, w⟩ := kv
    by_cases h1 : k1 = k'
    · simp [alookup, h1]
    · simp [alookup, h1, ih]

/-! #### Broker stability lemmas -/

namespace PubSub

theorem ensureChannel_message_queues (ps : PubSub) (c : String) :
    (ensureChannel ps c).message_queues = ps.message_queues := by
  rw [ensureChannel]
  split <;> rfl

theorem ensureChannel_room_subscriptions (ps : PubSub) (c : String) :
    (ensureChannel ps c).room_subscriptions = ps.room_subscriptions := by
  rw [ensureChannel]
  split <;> rfl

theorem channelTopics_ensureChannel (ps : PubSub) (c c' : String) :
    channelTopics (ensureChannel ps c) c' = channelTopics ps c' := by
  rw [ensureChannel]
  split
  · rfl
  · rename_i hnone
    rw [channelTopics, channelTopics]
    dsimp only
    rw [alookup_append_single]
    cases hc : alookup ps.subscribers c' with
    | some d => rfl
    | none =>
      by_cases h : c = c'
      · subst h
        rw [hnone] at hc
        simp
      · simp [h]

theorem subsOf_ensureChannel (ps : PubSub) (c c' t' : String) :
    subsOf (ensureChannel ps c) c' t' = subsOf ps c' t' := by
  rw [subsOf, subsOf, channelTopics_ensureChannel]

theorem ensureTopic_message_queues (ps : PubSub) (c t : String) :
    (ensureTopic ps c t).message_queues = ps.message_queues := by
  rw [ensureTopic]
  split
  · exact ensureChannel_message_queues ps c
  · exact ensureChannel_message_queues ps c

theorem ensureTopic_room_subscriptions (ps : PubSub) (c t : String) :
    (ensureTopic ps c t).room_subscriptions = ps.room_subscriptions := by
  rw [ensureTopic]
  split
  · exact ensureChannel_room_subscriptions ps c
  · exact ensureChannel_room_subscriptions ps c

theorem subsOf_ensureTopic (ps : PubSub) (c t c' t' : String) :
    subsOf (ensureTopic ps c t) c' t' = subsOf ps c' t' := by
  rw [show subsOf ps c' t' = subsOf (ensureChannel ps c) c' t' from
    (subsOf_ensureChannel ps c c' t').symm]
  rw [ensureTopic]
  split
  · rfl
  · rename_i hnone
    simp only [channelTopics] at hnone
    simp only [subsOf, channelTopics]
    by_cases hc : c = c'
    · subst hc
      rw [alookup_aset_self]
      simp only [Option.getD_some]
      rw [alookup_append_single]
      by_cases ht : t = t'
      · subst ht
        simp [hnone]
      · cases hd : alookup ((alookup (ensureChannel ps c).subscribers c).getD []) t' with
        | some w => simp [hd]
        | none => simp [hd, ht]
    · rw [alookup_aset_ne _ hc]

theorem ensureRoom_subscribers (ps : PubSub) (c r : String) :
    (ensureRoom ps c r).subscribers = ps.subscribers := by
  rw [ensureRoom]
  split <;> rfl

theorem ensureRoom_message_queues (ps : PubSub) (c r : String) :
    (ensureRoom ps c r).message_queues = ps.message_queues := by
  rw [ensureRoom]
  split <;> rfl

theorem roomOf_ensureRoom (ps : PubSub) (c r c' r' : String) :
    roomOf (ensureRoom ps c r) c' r' = roomOf ps c' r' := by
  rw [ensureRoom]
  split
  · rfl
  · rename_i hnone
    rw [roomOf, roomOf]
    dsimp only
    rw [alookup_append_single]
    cases hc : alookup ps.room_subscriptions (c', r') with
    | some d => rfl
    | none =>
      by_cases h : (c, r) = (c', r')
      · simp [h]
      · simp [h]

theorem subsOf_ensureRoom (ps : PubSub) (c r c' t' : String) :
    subsOf (ensureRoom ps c r) c' t' = subsOf ps c' t' := by
  rw [subsOf, subsOf, channelTopics, channelTopics, ensureRoom_subscribers]

theorem modifySub_message_queues (ps : PubSub) (c t : String)
    (f : List String → List String) :
    (modifySub ps c t f).message_queues = ps.message_queues := by
  simp only [modifySub]
  exact ensureTopic_message_queues ps c t

theorem modifySub_room_subscriptions (ps : PubSub) (c t : String)
    (f : List String → List String) :
    (modifySub ps c t f).room_subscriptions = ps.room_subscriptions := by
  simp only [modifySub]
  exact ensureTopic_room_subscriptions ps c t

theorem subsOf_modifySub (ps : PubSub) (c t : String) (f : List String → List String)
    (c' t' : String) :
    subsOf (modifySub ps c t f) c' t' =
      if c = c' ∧ t = t' then f (subsOf ps c t) else subsOf ps c' t' := by
  have h1 : subsOf ps c t = subsOf (ensureTopic ps c t) c t :=
    (subsOf_ensureTopic ps c t c t).symm
  have h2 : subsOf ps c' t' = subsOf (ensureTopic ps c t) c' t' :=
    (subsOf_ensureTopic ps c t c' t').symm
  rw [h1, h2, modifySub]
  generalize ensureTopic ps c t = ps1
  simp only [subsOf, channelTopics]
  by_cases hc : c = c'
  · subst hc
    rw [alookup_aset_self]
    simp only [Option.getD_some]
    by_cases ht : t = t'
    · subst ht
      rw [alookup_aset_self]
      simp
    · rw [alookup_aset_ne _ ht]
      simp [ht]
  · rw [alookup_aset_ne _ hc]
    simp [hc]

theorem modifyRoom_subscribers (ps : PubSub) (c r : String)
    (f : List String → List String) :
    (modifyRoom ps c r f).subscribers = ps.subscribers := by
  simp only [modifyRoom]
  exact ensureRoom_subscribers ps c r

theorem modifyRoom_message_queues (ps : PubSub) (c r : String)
    (f : List String → List String) :
    (modifyRoom ps c r f).message_queues = ps.message_queues := by
  simp only [modifyRoom]
  exact ensureRoom_message_queues ps c r

theorem roomOf_modifyRoom (ps : PubSub) (c r : String) (f : List String → List String)
    (c' r' : String) :
    roomOf (modifyRoom ps c r f) c' r' =
      if (c, r) = (c', r') then f (roomOf ps c r) else roomOf ps c' r' := by
  have h1 : roomOf ps c r = roomOf (ensureRoom ps c r) c r :=
    (roomOf_ensureRoom ps c r c r).symm
  have h2 : roomOf ps c' r' = roomOf (ensureRoom ps c r) c' r' :=
    (roomOf_ensureRoom ps c r c' r').symm
  rw [h1, h2, modifyRoom]
  generalize ensureRoom ps c r = ps1
  simp only [roomOf]
  by_cases h : (c, r) = (c', r')
  · rw [← h, alookup_aset_self]
    simp
  · rw [alookup_aset_ne _ h]
    simp [h]

theorem queueOf_register (ps : PubSub) (sid : String) (q : List ServiceEvent)
    (sid' : String) :
    queueOf (register ps sid q) sid' =
      if sid = sid' then some q else queueOf ps sid' := by
  rw [register, queueOf, queueOf]
  dsimp only
  by_cases h : sid = sid'
  · subst h
    rw [alookup_aset_self]
    simp
  · rw [alookup_aset_ne _ h]
    simp [h]

/-! #### Publish characterization -/

theorem gatherFold_spec (ch : String) (roomsL : List String) :
    ∀ (ps : PubSub) (acc : List String),
      roomsL.foldl
        (fun (a : PubSub × List String) room =>
          (ensureRoom a.1 ch room, sunion a.2 (roomOf (ensureRoom a.1 ch room) ch room)))
        (ps, acc) =
      (roomsL.foldl (fun p r => ensureRoom p ch r) ps,
       roomsL.foldl (fun a r => sunion a (roomOf ps ch r)) acc) := by
  induction roomsL with
  | nil => intro ps acc; rfl
  | cons r rest ih =>
    intro ps acc
    simp only [List.foldl_cons]
    rw [ih]
    rw [roomOf_ensureRoom]
    have he : (fun (a : List String) r2 => sunion a (roomOf (ensureRoom ps ch r) ch r2)) =
        (fun (a : List String) r2 => sunion a (roomOf ps ch r2)) := by
      funext a r2
      rw [roomOf_ensureRoom]
    rw [he]

theorem ensureRoomFold_message_queues (ch : String) (roomsL : List String) :
    ∀ (ps : PubSub),
      (roomsL.foldl (fun p r => ensureRoom p ch r) ps).message_queues =
        ps.message_queues := by
  induction roomsL with
  | nil => intro ps; rfl
  | cons r rest ih =>
    intro ps
    simp only [List.foldl_cons]
    rw [ih, ensureRoom_message_queues]

theorem ensureRoomFold_subsOf (ch : String) (roomsL : List String) :
    ∀ (ps : PubSub) (c' t' : String),
      subsOf (roomsL.foldl (fun p r => ensureRoom p ch r) ps) c' t' =
        subsOf ps c' t' := by
  induction roomsL with
  | nil => intro ps c' t'; rfl
  | cons r rest ih =>
    intro ps c' t'
    simp only [List.foldl_cons]
    rw [ih, subsOf_ensureRoom]

theorem publishStep_foldl_lookup (event : ServiceEvent)
    (excludeSet allRecipients : List String) :
    ∀ (subs : List String) (mq : List (String × List ServiceEvent)) (sid : String),
      subs.Nodup →
      alookup (subs.foldl (publishStep event excludeSet allRecipients) mq) sid =
        if sid ∈ subs ∧ sid ∉ excludeSet ∧
           (allRecipients = [] ∨ sid ∈ allRecipients)
        then (alookup mq sid).map (fun q => heappush q event)
        else alookup mq sid := by
  intro subs
  induction subs with
  | nil =>
    intro mq sid hnd
    simp
  | cons s rest ih =>
    intro mq sid hnd
    obtain ⟨hs, hrest⟩ := List.nodup_cons.mp hnd
    simp only [List.foldl_cons]
    rw [ih _ _ hrest]
    by_cases hsid : sid = s
    · rw [hsid]
      rw [if_neg (fun hcon => hs hcon.1)]
      rw [publishStep]
      by_cases he : s ∈ excludeSet
      · rw [if_pos he, if_neg (fun hcon => hcon.2.1 he)]
      · rw [if_neg he]
        by_cases hr : ¬ allRecipients.isEmpty ∧ s ∉ allRecipients
        · rw [if_pos hr, if_neg (fun hcon => by
            rcases hcon.2.2 with h | h
            · rw [h] at hr
              exact hr.1 rfl
            · exact hr.2 h)]
        · rw [if_neg hr]
          have hcond : s ∈ s :: rest ∧ s ∉ excludeSet ∧
              (allRecipients = [] ∨ s ∈ allRecipients) := by
            refine ⟨List.mem_cons_self _ _, he, ?_⟩
            by_cases hae : allRecipients.isEmpty
            · exact Or.inl (List.isEmpty_iff.mp hae)
            · by_cases ham : s ∈ allRecipients
              · exact Or.inr ham
              · exact absurd ⟨hae, ham⟩ hr
          rw [if_pos hcond]
          cases hq : alookup mq s with
          | none => simp [hq]
          | some q =>
            rw [alookup_aset_self]
            simp
    · have hlkp : alookup (publishStep event excludeSet allRecipients mq s) sid =
          alookup mq sid := by
        rw [publishStep]
        split
        · rfl
        · split
          · rfl
          · cases hq : alookup mq s with
            | none => rfl
            | some q => exact alookup_aset_ne _ (fun he2 => hsid he2.symm)
      rw [hlkp]
      by_cases hcond : sid ∈ rest ∧ sid ∉ excludeSet ∧
          (allRecipients = [] ∨ sid ∈ allRecipients)
      · rw [if_pos hcond, if_pos ⟨List.mem_cons_of_mem _ hcond.1, hcond.2⟩]
      · rw [if_neg hcond, if_neg (fun hcon => hcond ⟨by
          rcases List.mem_cons.mp hcon.1 with h | h
          · exact absurd h hsid
          · exact h, hcon.2⟩)]

theorem publish_queueOf (ps : PubSub) (ch : String) (ev : ServiceEvent)
    (rooms recipients exclude : Option (List String)) (sid : String)
    (hnd : (subsOf ps ch ev.name).Nodup) :
    queueOf (publish ps ch ev rooms recipients exclude) sid =
      if sid ∈ subsOf ps ch ev.name ∧ sid ∉ toSet (exclude.getD []) ∧
         (effectiveRecipients ps ch rooms recipients exclude = [] ∨
          sid ∈ effectiveRecipients ps ch rooms recipients exclude)
      then (queueOf ps sid).map (fun q => heappush q ev)
      else queueOf ps sid := by
  simp only [publish]
  rw [gatherFold_spec]
  simp only [queueOf]
  rw [ensureTopic_message_queues, ensureRoomFold_message_queues]
  rw [subsOf_ensureTopic, ensureRoomFold_subsOf]
  rw [publishStep_foldl_lookup _ _ _ _ _ _ hnd]
  rfl

theorem publishStep_foldl_lookup_notmem (event : ServiceEvent)
    (excludeSet allRecipients : List String) :
    ∀ (subs : List String) (mq : List (String × List ServiceEvent)) (sid : String),
      sid ∉ subs →
      alookup (subs.foldl (publishStep event excludeSet allRecipients) mq) sid =
        alookup mq sid := by
  intro subs
  induction subs with
  | nil => intro mq sid hmem; rfl
  | cons s rest ih =>
    intro mq sid hmem
    simp only [List.foldl_cons]
    rw [ih _ _ (fun h => hmem (List.mem_cons_of_mem _ h))]
    have hsid : sid ≠ s := fun h => hmem (h ▸ List.mem_cons_self _ _)
    rw [publishStep]
    split
    · rfl
    · split
      · rfl
      · cases hq : alookup mq s with
        | none => rfl
        | some q => exact alookup_aset_ne _ (fun he2 => hsid he2.symm)

theorem publish_queueOf_notmem (ps : PubSub) (ch : String) (ev : ServiceEvent)
    (rooms recipients exclude : Option (List String)) (sid : String)
    (hmem : sid ∉ subsOf ps ch ev.name) :
    queueOf (publish ps ch ev rooms recipients exclude) sid = queueOf ps sid := by
  simp only [publish]
  rw [gatherFold_spec]
  simp only [queueOf]
  rw [ensureTopic_message_queues, ensureRoomFold_message_queues]
  rw [subsOf_ensureTopic, ensureRoomFold_subsOf]
  rw [publishStep_foldl_lookup_notmem _ _ _ _ _ _ hmem]

end PubSub

/-! #### Set operation lemmas -/

theorem mem_sadd_self (s : List String) (x : String) : x ∈ sadd s x := by
  rw [sadd]
  split
  · assumption
  · simp

theorem sadd_idem (s : List String) (x : String) : sadd (sadd s x) x = sadd s x := by
  by_cases hx : x ∈ s
  · simp [sadd, hx]
  · simp [sadd, hx]

theorem sdiscard_idem (s : List String) (x : String) :
    sdiscard (sdiscard s x) x = sdiscard s x := by
  simp only [sdiscard]
  rw [List.filter_filter]
  simp

theorem not_mem_sdiscard (s : List String) (x : String) : x ∉ sdiscard s x := by
  rw [sdiscard]
  intro h
  have := List.of_mem_filter h
  simp at this

theorem sadd_nodup {s : List String} (hs : s.Nodup) (x : String) : (sadd s x).Nodup := by
  rw [sadd]
  split
  · exact hs
  · rename_i h
    rw [← List.concat_eq_append]
    exact List.Nodup.concat h hs

namespace PubSub

/-! #### join_room / leave_room characterization -/

theorem subsOf_modifyRoom (ps : PubSub) (c r : String) (f : List String → List String)
    (c' t' : String) :
    subsOf (modifyRoom ps c r f) c' t' = subsOf ps c' t' := by
  rw [subsOf, subsOf, channelTopics, channelTopics, modifyRoom_subscribers]

theorem topicsOf_modifyRoom (ps : PubSub) (c r : String) (f : List String → List String)
    (c' : String) : topicsOf (modifyRoom ps c r f) c' = topicsOf ps c' := by
  rw [topicsOf, topicsOf, channelTopics, channelTopics, modifyRoom_subscribers]

theorem topicsOf_ensureChannel (ps : PubSub) (c c' : String) :
    topicsOf (ensureChannel ps c) c' = topicsOf ps c' := by
  rw [topicsOf, topicsOf, channelTopics_ensureChannel]

theorem modifySubFoldAdd_subsOf (ch sid : String) (topics : List String) :
    ∀ (ps : PubSub) (c' t' : String),
      subsOf (topics.foldl (fun p t => modifySub p ch t (fun s2 => sadd s2 sid)) ps) c' t' =
        if ch = c' ∧ t' ∈ topics then sadd (subsOf ps c' t') sid
        else subsOf ps c' t' := by
  induction topics with
  | nil =>
    intro ps c' t'
    simp
  | cons t topics ih =>
    intro ps c' t'
    simp only [List.foldl_cons]
    rw [ih, subsOf_modifySub]
    by_cases hc : ch = c'
    · subst hc
      by_cases htt : t = t'
      · subst htt
        rw [if_pos (show ch = ch ∧ t = t from ⟨rfl, rfl⟩)]
        by_cases ht : t ∈ topics
        · rw [if_pos (show ch = ch ∧ t ∈ topics from ⟨rfl, ht⟩), sadd_idem,
            if_pos (show ch = ch ∧ t ∈ t :: topics from
              ⟨rfl, List.mem_cons_self t topics⟩)]
        · rw [if_neg (show ¬ (ch = ch ∧ t ∈ topics) from fun hcon => ht hcon.2),
            if_pos (show ch = ch ∧ t ∈ t :: topics from
              ⟨rfl, List.mem_cons_self t topics⟩)]
      · rw [if_neg (show ¬ (ch = ch ∧ t = t') from fun hcon => htt hcon.2)]
        by_cases ht : t' ∈ topics
        · rw [if_pos (show ch = ch ∧ t' ∈ topics from ⟨rfl, ht⟩),
            if_pos (show ch = ch ∧ t' ∈ t :: topics from
              ⟨rfl, List.mem_cons_of_mem t ht⟩)]
        · rw [if_neg (show ¬ (ch = ch ∧ t' ∈ topics) from fun hcon => ht hcon.2),
            if_neg (show ¬ (ch = ch ∧ t' ∈ t :: topics) from fun hcon => by
              rcases List.mem_cons.mp hcon.2 with h | h
              · exact htt h.symm
              · exact ht h)]
    · rw [if_neg (show ¬ (ch = c' ∧ t' ∈ topics) from fun hcon => hc hcon.1),
        if_neg (show ¬ (ch = c' ∧ t = t') from fun hcon => hc hcon.1),
        if_neg (show ¬ (ch = c' ∧ t' ∈ t :: topics) from fun hcon => hc hcon.1)]

theorem modifySubFoldDiscard_subsOf (ch sid : String) (topics : List String) :
    ∀ (ps : PubSub) (c' t' : String),
      subsOf (topics.foldl (fun p t => modifySub p ch t (fun s2 => sdiscard s2 sid)) ps) c' t' =
        if ch = c' ∧ t' ∈ topics then sdiscard (subsOf ps c' t') sid
        else subsOf ps c' t' := by
  induction topics with
  | nil =>
    intro ps c' t'
    simp
  | cons t topics ih =>
    intro ps c' t'
    simp only [List.foldl_cons]
    rw [ih, subsOf_modifySub]
    by_cases hc : ch = c'
    · subst hc
      by_cases htt : t = t'
      · subst htt
        rw [if_pos (show ch = ch ∧ t = t from ⟨rfl, rfl⟩)]
        by_cases ht : t ∈ topics
        · rw [if_pos (show ch = ch ∧ t ∈ topics from ⟨rfl, ht⟩), sdiscard_idem,
            if_pos (show ch = ch ∧ t ∈ t :: topics from
              ⟨rfl, List.mem_cons_self t topics⟩)]
        · rw [if_neg (show ¬ (ch = ch ∧ t ∈ topics) from fun hcon => ht hcon.2),
            if_pos (show ch = ch ∧ t ∈ t :: topics from
              ⟨rfl, List.mem_cons_self t topics⟩)]
      · rw [if_neg (show ¬ (ch = ch ∧ t = t') from fun hcon => htt hcon.2)]
        by_cases ht : t' ∈ topics
        · rw [if_pos (show ch = ch ∧ t' ∈ topics from ⟨rfl, ht⟩),
            if_pos (show ch = ch ∧ t' ∈ t :: topics from
              ⟨rfl, List.mem_cons_of_mem t ht⟩)]
        · rw [if_neg (show ¬ (ch = ch ∧ t' ∈ topics) from fun hcon => ht hcon.2),
            if_neg (show ¬ (ch = ch ∧ t' ∈ t :: topics) from fun hcon => by
              rcases List.mem_cons.mp hcon.2 with h | h
              · exact htt h.symm
              · exact ht h)]
    · rw [if_neg (show ¬ (ch = c' ∧ t' ∈ topics) from fun hcon => hc hcon.1),
        if_neg (show ¬ (ch = c' ∧ t = t') from fun hcon => hc hcon.1),
        if_neg (show ¬ (ch = c' ∧ t' ∈ t :: topics) from fun hcon => hc hcon.1)]

theorem modifySubFold_message_queues (ch : String) (f : List String → List String)
    (topics : List String) :
    ∀ (ps : PubSub),
      (topics.foldl (fun p t => modifySub p ch t f) ps).message_queues =
        ps.message_queues := by
  induction topics with
  | nil => intro ps; rfl
  | cons t topics ih =>
    intro ps
    simp only [List.foldl_cons]
    rw [ih, modifySub_message_queues]

theorem join_room_subsOf (ps : PubSub) (sid ch room c' t' : String) :
    subsOf (join_room ps sid ch room) c' t' =
      if ch = c' ∧ t' ∈ topicsOf ps ch then sadd (subsOf ps c' t') sid
      else subsOf ps c' t' := by
  simp only [join_room]
  rw [modifySubFoldAdd_subsOf, topicsOf_ensureChannel, topicsOf_modifyRoom,
    subsOf_ensureChannel, subsOf_modifyRoom]

theorem leave_room_subsOf (ps : PubSub) (sid ch room c' t' : String) :
    subsOf (leave_room ps sid ch room) c' t' =
      if ch = c' ∧ t' ∈ topicsOf ps ch then sdiscard (subsOf ps c' t') sid
      else subsOf ps c' t' := by
  simp only [leave_room]
  rw [modifySubFoldDiscard_subsOf, topicsOf_ensureChannel, topicsOf_modifyRoom,
    subsOf_ensureChannel, subsOf_modifyRoom]

theorem queueOf_join_room (ps : PubSub) (sid ch room sid' : String) :
    queueOf (join_room ps sid ch room) sid' = queueOf ps sid' := by
  simp only [join_room, queueOf]
  rw [modifySubFold_message_queues, ensureChannel_message_queues,
    modifyRoom_message_queues]

theorem queueOf_leave_room (ps : PubSub) (sid ch room sid' : String) :
    queueOf (leave_room ps sid ch room) sid' = queueOf ps sid' := by
  simp only [leave_room, queueOf]
  rw [modifySubFold_message_queues, ensureChannel_message_queues,
    modifyRoom_message_queues]

theorem alookup_eq_none_of_not_mem_keys {A B : Type} [DecidableEq A]
    (l : List (A × B)) (k : A) (h : k ∉ l.map Prod.fst) : alookup l k = none := by
  induction l with
  | nil => rfl
  | cons kv rest ih =>
    obtain ⟨k1, w⟩ := kv
    simp only [List.map_cons, List.mem_cons] at h
    push_neg at h
    rw [alookup]
    rw [if_neg (fun he => h.1 he.symm)]
    exact ih h.2

theorem subsOf_eq_nil_of_not_topic (ps : PubSub) (ch t : String)
    (h : t ∉ topicsOf ps ch) : subsOf ps ch t = [] := by
  rw [subsOf, alookup_eq_none_of_not_mem_keys _ _ h]
  rfl

end PubSub

/-! #### Session lemmas -/

theorem registerAttr_components (comp : Component) (sess : Session) (a : AttrTag) :
    (registerAttr comp sess a).components = sess.components := by
  obtain ⟨nm, eh, suh, seh, rp, cb⟩ := a
  cases eh <;> cases suh <;> rcases seh with _ | ⟨ev, svc⟩ <;> rfl

theorem registerHandlers_components (sess : Session) (comp : Component) :
    (registerHandlers sess comp).components = sess.components := by
  have main : ∀ (attrs : List AttrTag) (s2 : Session),
      (attrs.foldl (registerAttr comp) s2).components = s2.components := by
    intro attrs
    induction attrs with
    | nil => intro s2; rfl
    | cons a rest ih =>
      intro s2
      simp only [List.foldl_cons]
      rw [ih, registerAttr_components]
  exact main comp.cls.attrs _

/-! ### Claims -/

/-- C1 (amended): for every broker state, channel, event and argument
combination, `publish` enqueues the event into exactly the queues of the
subscriber ids in (subscribers of `channel/event.name`) minus the exclude
set, further restricted to the rooms-union-recipients set minus exclusions
only when that restriction set is non-empty (when it is empty — in
particular when `rooms`/`recipients` are omitted, but also when they are
given yet contribute no surviving member — every subscriber is eligible);
ids without a registered queue are skipped without error (`Option.map` on an
absent queue), and every other id's queue is untouched. -/
theorem claimC1_publish_delivery (ps : PubSub) (ch : String) (ev : ServiceEvent)
    (rooms recipients exclude : Option (List String)) (sid : String)
    (hnd : (PubSub.subsOf ps ch ev.name).Nodup) :
    PubSub.queueOf (PubSub.publish ps ch ev rooms recipients exclude) sid =
      if sid ∈ PubSub.subsOf ps ch ev.name ∧ sid ∉ toSet (exclude.getD []) ∧
         (PubSub.effectiveRecipients ps ch rooms recipients exclude = [] ∨
          sid ∈ PubSub.effectiveRecipients ps ch rooms recipients exclude)
      then (PubSub.queueOf ps sid).map (fun q => heappush q ev)
      else PubSub.queueOf ps sid :=
  PubSub.publish_queueOf ps ch ev rooms recipients exclude sid hnd

theorem claimC1_publish_delivery_witness :
    (PubSub.subsOf psB "ch" evE.name).Nodup ∧
    PubSub.queueOf (PubSub.publish psB "ch" evE none none none) "a" =
      (if "a" ∈ PubSub.subsOf psB "ch" evE.name ∧
          "a" ∉ toSet ((none : Option (List String)).getD []) ∧
          (PubSub.effectiveRecipients psB "ch" none none none = [] ∨
           "a" ∈ PubSub.effectiveRecipients psB "ch" none none none)
       then (PubSub.queueOf psB "a").map (fun q => heappush q evE)
       else PubSub.queueOf psB "a") :=
  ⟨by decide, claimC1_publish_delivery psB "ch" evE none none none "a" (by decide)⟩

/-- C1 (counterexample): with rooms given but the room empty, the
rooms-union-recipients restriction is empty, and the code falls back to
delivering to every subscriber: `"a"` receives the event although the
claim's delivery set — subscribers intersected with the union of the given
rooms' members and recipients, minus exclusions — is empty. -/
theorem claimC1_counterexample :
    PubSub.queueOf (PubSub.publish psB "ch" evE (some ["r"]) none none) "a" =
      some [evE] ∧
    PubSub.specDelivered psB "ch" evE (some ["r"]) none none = [] := by
  exact ⟨rfl, rfl⟩

/-- C2 (amended): dequeue order from a subscriber queue is always by
priority ascending (lower numeric value first) — for every publish sequence,
draining the heap built by the successive `put_nowait` calls yields
pairwise non-decreasing priorities — and the claim's two cited sequences
hold: priorities `[3,1,2]` published in that order are delivered `[1,2,3]`,
and two equal-priority events `A` then `B` alone are delivered `A, B`.
Equal-priority FIFO does not hold in general (see the counterexample). -/
theorem claimC2_priority_order :
    (∀ events : List ServiceEvent,
       List.Pairwise (fun a b : ServiceEvent => a.priority ≤ b.priority)
         (drain (pushAll events))) ∧
    drain ((PubSub.queueOf
        (PubSub.publish
          (PubSub.publish (PubSub.publish psB "ch" (evP "p3" 3) none none none)
            "ch" (evP "p1" 1) none none none)
          "ch" (evP "p2" 2) none none none) "a").getD []) =
      [evP "p1" 1, evP "p2" 2, evP "p3" 3] ∧
    drain ((PubSub.queueOf
        (PubSub.publish (PubSub.publish psB "ch" (evP "A" 1) none none none)
          "ch" (evP "B" 1) none none none) "a").getD []) =
      [evP "A" 1, evP "B" 1] :=
  ⟨fun events => drain_sorted (pushAll_isHeap events), by decide, by decide⟩

/-- C2 (counterexample): equal-priority events are not dequeued in publish
order in general — publishing `A`(2), `B`(2), `C`(1) in that order delivers
`C, B, A`: the equal-priority pair `A`, `B` comes out `B` before `A`,
violating FIFO. -/
theorem claimC2_counterexample :
    drain ((PubSub.queueOf
        (PubSub.publish
          (PubSub.publish (PubSub.publish psB "ch" (evP "A" 2) none none none)
            "ch" (evP "B" 2) none none none)
          "ch" (evP "C" 1) none none none) "a").getD []) =
      [evP "C" 1, evP "B" 2, evP "A" 2] ∧
    (evP "A" 2).priority = (evP "B" 2).priority ∧ evP "A" 2 ≠ evP "B" 2 :=
  ⟨by decide, rfl, by decide⟩

/-- C3 (amended): after `join_room(id, channel, room)` the id receives every
event subsequently published (with default arguments) on any topic that was
present under the channel at join time — its registered queue gets the event
pushed; topics first subscribed-to by anyone only after the join are not
covered (see the counterexample).  After `leave_room(id, channel, room)` the
id receives no further events published on that channel's topics: its queue
is unchanged by any such publish. -/
theorem claimC3_room_coverage :
    (∀ (ps : PubSub) (sid ch room : String) (ev : ServiceEvent),
       ev.name ∈ PubSub.topicsOf ps ch →
       (PubSub.subsOf ps ch ev.name).Nodup →
       PubSub.queueOf
           (PubSub.publish (PubSub.join_room ps sid ch room) ch ev none none none)
           sid =
         (PubSub.queueOf ps sid).map (fun q => heappush q ev)) ∧
    (∀ (ps : PubSub) (sid ch room : String) (ev : ServiceEvent),
       PubSub.queueOf
           (PubSub.publish (PubSub.leave_room ps sid ch room) ch ev none none none)
           sid =
         PubSub.queueOf ps sid) := by
  constructor
  · intro ps sid ch room ev hname hnd
    have hsubs : PubSub.subsOf (PubSub.join_room ps sid ch room) ch ev.name =
        sadd (PubSub.subsOf ps ch ev.name) sid := by
      rw [PubSub.join_room_subsOf, if_pos ⟨rfl, hname⟩]
    have hnd2 : (PubSub.subsOf (PubSub.join_room ps sid ch room) ch ev.name).Nodup := by
      rw [hsubs]
      exact sadd_nodup hnd sid
    rw [PubSub.publish_queueOf _ _ _ _ _ _ _ hnd2]
    rw [if_pos ⟨by rw [hsubs]; exact mem_sadd_self _ sid,
      List.not_mem_nil sid, Or.inl rfl⟩]
    rw [PubSub.queueOf_join_room]
  · intro ps sid ch room ev
    have hnm : sid ∉ PubSub.subsOf (PubSub.leave_room ps sid ch room) ch ev.name := by
      rw [PubSub.leave_room_subsOf]
      split
      · exact not_mem_sdiscard _ sid
      · rename_i hcond
        have hnt : ev.name ∉ PubSub.topicsOf ps ch := fun hmem => hcond ⟨rfl, hmem⟩
        rw [PubSub.subsOf_eq_nil_of_not_topic ps ch ev.name hnt]
        exact List.not_mem_nil sid
    rw [PubSub.publish_queueOf_notmem _ _ _ _ _ _ _ hnm, PubSub.queueOf_leave_room]

theorem claimC3_room_coverage_witness :
    (evE.name ∈ PubSub.topicsOf psB "ch" ∧ (PubSub.subsOf psB "ch" evE.name).Nodup ∧
     PubSub.queueOf
         (PubSub.publish (PubSub.join_room psB "a" "ch" "lobby") "ch" evE none none none)
         "a" =
       (PubSub.queueOf psB "a").map (fun q => heappush q evE)) ∧
    PubSub.queueOf
        (PubSub.publish (PubSub.leave_room psB "a" "ch" "lobby") "ch" evE none none none)
        "a" =
      PubSub.queueOf psB "a" :=
  ⟨⟨by decide, by decide,
    claimC3_room_coverage.1 psB "a" "ch" "lobby" evE (by decide) (by decide)⟩,
   claimC3_room_coverage.2 psB "a" "ch" "lobby" evE⟩

/-- C3 (counterexample): a topic first subscribed-to after the join is not
covered — `"id"` joins a room on a channel with no topics, `"other"` then
subscribes to topic `t`, and an event published on `t` never reaches
`"id"`'s registered queue (it stays empty), although the claim says the id
receives every event on topics first subscribed-to by anyone after the
join. -/
theorem claimC3_counterexample :
    "id" ∈ PubSub.roomOf psLateTopic "ch" "room" ∧
    (PubSub.queueOf psLateTopic "id").isSome = true ∧
    PubSub.queueOf
        (PubSub.publish psLateTopic "ch" { name := "t", source := "svc" } none none none)
        "id" =
      some [] := by
  exact ⟨by decide, rfl, rfl⟩

/-- C4 (code bug): after a component's destroy sequence completes and the
session removes it from its table, broker state and system handlers remain:
`__destroy__` calls `pubsub.quit(self.id)` with the bare component id
although registration used `"<session id>/<component id>"`, so the topic
subscription and the queue registration under `"S/c1"` survive; and
`_remove_handlers` never deregisters the `$session_connect` /
`$session_disconnect` handlers registered at construction.  The tagged
`click` handler is removed, showing the leak is specific to these two
paths. -/
theorem claimC4_destroy_leaks :
    (Session.add_component compMapW sessRoot "c1" "root" "Widget" []).1 = none ∧
    (Session.destroy_component sessAfterAdd "c1").1 = none ∧
    alookup sessAfterDestroy.components "c1" = none ∧
    "S/c1" ∈ PubSub.subsOf sessAfterDestroy.pubsub "$Service/Chat" "msg" ∧
    (PubSub.queueOf sessAfterDestroy.pubsub "S/c1").isSome = true ∧
    ("c1", "on_connect") ∈ Session.handlersFor sessAfterDestroy "$session_connect" ∧
    ("c1", "on_disconnect") ∈ Session.handlersFor sessAfterDestroy "$session_disconnect" ∧
    ("c1", "on_click") ∉ Session.handlersFor sessAfterDestroy "click" := by
  decide

/-- C9 (code bug): `quit(sid)` with no channel argument iterates only the
channels that appear as keys of the room table; a channel with topic
subscriptions but no room entry is never visited, so the id stays
subscribed there — contradicting the code's own comment ("Remove the
subscriber from all channels and rooms") and the claim.  The queue
registration is deleted as claimed. -/
theorem claimC9_quit_misses_roomless_channel :
    PubSub.subsOf psQuit "ch" "t" = ["s"] ∧
    "s" ∈ PubSub.subsOf (PubSub.quit psQuit "s" none) "ch" "t" ∧
    PubSub.queueOf (PubSub.quit psQuit "s" none) "s" = none := by
  decide

/-- C5 (amended): `add_component` with a parent id that is neither present
in the session's component table nor equal to the new component id fails
with a `KeyError` (NotFound-kind) — but the table has already been mutated:
the new component id is inserted (and its handler and broker registrations
performed) before the parent lookup; every other binding of the table is
unchanged, so in particular the parent's child list is untouched. -/
theorem claimC5_add_component_unknown_parent
    (compMap : List (String × ComponentClass)) (sess : Session)
    (comp_id parent_id comp_type : String) (props : List (String × Value))
    (cls : ComponentClass)
    (hty : alookup compMap comp_type = some cls)
    (hpar : alookup sess.components parent_id = none)
    (hne : parent_id ≠ comp_id) :
    (Session.add_component compMap sess comp_id parent_id comp_type props).1 =
      some PyErr.keyError ∧
    (alookup (Session.add_component compMap sess comp_id parent_id comp_type
        props).2.components comp_id).isSome = true ∧
    (∀ x, x ≠ comp_id →
      alookup (Session.add_component compMap sess comp_id parent_id comp_type
          props).2.components x =
        alookup sess.components x) := by
  rw [Session.add_component, hty]
  dsimp only
  have hcomps :
      ({ registerHandlers sess
           { id := comp_id, parent_id := parent_id, cls := cls } with
         pubsub := (registerHandlers sess
           { id := comp_id, parent_id := parent_id, cls := cls }).pubsub.register
             (sess.id ++ "/" ++ comp_id) [] } : Session).components =
      sess.components := by
    exact registerHandlers_components sess _
  rw [hcomps]
  rw [alookup_aset_ne _ (fun he => hne he.symm), hpar]
  dsimp only
  refine ⟨rfl, ?_, ?_⟩
  · rw [alookup_aset_self]
    rfl
  · intro x hx
    rw [alookup_aset_ne _ (fun he => hx he.symm)]

theorem claimC5_add_component_unknown_parent_witness :
    (alookup compMapW "Widget" = some widgetClass ∧
     alookup sessRoot.components "nope" = none ∧ "nope" ≠ "c1") ∧
    ((Session.add_component compMapW sessRoot "c1" "nope" "Widget" []).1 =
       some PyErr.keyError ∧
     (alookup (Session.add_component compMapW sessRoot "c1" "nope" "Widget"
         []).2.components "c1").isSome = true ∧
     (∀ x, x ≠ "c1" →
       alookup (Session.add_component compMapW sessRoot "c1" "nope" "Widget"
           []).2.components x =
         alookup sessRoot.components x)) :=
  ⟨⟨by decide, by decide, by decide⟩,
   claimC5_add_component_unknown_parent compMapW sessRoot "c1" "nope" "Widget" []
     widgetClass (by decide) (by decide) (by decide)⟩

/-- C5 (counterexample): the claim's "leaves the session's component table
unchanged (in particular, the new component id is not inserted)" is false —
after the failing call the new id is present in the table. -/
theorem claimC5_counterexample :
    (Session.add_component compMapW sessRoot "c1" "nope" "Widget" []).1 =
      some PyErr.keyError ∧
    (alookup (Session.add_component compMapW sessRoot "c1" "nope" "Widget"
        []).2.components "c1").isSome = true := by
  decide

/-- C6 (amended): `__exec_rpc__` resolves the name by plain attribute lookup
and never consults the `rpc` flag: any callable attribute is invoked and its
result is sent in an `rpc-result` message; only an absent (or non-callable)
name raises `AttributeError` (NotFound-kind), and in that case the exception
propagates out of the `$exec_rpc` task before `send_msg`, so no `rpc-result`
message is enqueued for the caller (the session state is unchanged). -/
theorem claimC6_exec_rpc_dispatch (rpcRun : String → String → List Value → Value)
    (sess : Session) (req_id : Option Value) (comp_id rpc_name : String)
    (args : List Value) (comp : Component)
    (hc : alookup sess.components comp_id = some comp) :
    (∀ a, comp.cls.attrs.find? (fun x => x.name = rpc_name) = some a →
       a.callable = true →
       Session.exec_rpc rpcRun sess req_id comp_id rpc_name args =
         (none, Session.send_msg sess
           { topic := Topic.plain "rpc-result",
             content := rpcRun comp.id rpc_name args, req_id := req_id })) ∧
    (comp.cls.attrs.find? (fun x => x.name = rpc_name) = none →
       Session.exec_rpc rpcRun sess req_id comp_id rpc_name args =
         (some PyErr.attributeError, sess)) := by
  constructor
  · intro a hfind hcall
    rw [Session.exec_rpc, hc]
    dsimp only
    rw [execRpcMethod, hfind]
    dsimp only
    rw [if_pos hcall]
  · intro hfind
    rw [Session.exec_rpc, hc]
    dsimp only
    rw [execRpcMethod, hfind]

theorem claimC6_exec_rpc_dispatch_witness :
    (alookup sessHelper.components "c1" = some compHelper) ∧
    ((∀ a, compHelper.cls.attrs.find? (fun x => x.name = "helper") = some a →
        a.callable = true →
        Session.exec_rpc rpcNil sessHelper none "c1" "helper" [] =
          (none, Session.send_msg sessHelper
            { topic := Topic.plain "rpc-result",
              content := rpcNil compHelper.id "helper" [], req_id := none })) ∧
     (compHelper.cls.attrs.find? (fun x => x.name = "helper") = none →
        Session.exec_rpc rpcNil sessHelper none "c1" "helper" [] =
          (some PyErr.attributeError, sessHelper))) :=
  ⟨by decide,
   claimC6_exec_rpc_dispatch rpcNil sessHelper none "c1" "helper" [] compHelper
     (by decide)⟩

/-- C6 (counterexample): the claim is false on both halves — invoking the
callable-but-unflagged method `helper` succeeds instead of failing with a
NotFound-kind error, and invoking the absent method `nope` raises an
`AttributeError` that leaves the session untouched: no `rpc-result` message
carrying the error is ever enqueued (the outbound queue stays empty). -/
theorem claimC6_counterexample :
    (Session.exec_rpc rpcNil sessHelper none "c1" "helper" []).1 = none ∧
    Session.exec_rpc rpcNil sessHelper none "c1" "nope" [] =
      (some PyErr.attributeError, sessHelper) ∧
    sessHelper.msg_queue = [] := by
  decide

/-- C7 (confirmed): a server-side write through the property setter enqueues
exactly one outbound `store-value` message carrying the new value (the
outbound queue grows by exactly that one message), while the `set_store`
path taken by a client `store-set` wire message — both its direct-assignment
branch and its update-handler branch — enqueues no outbound message at
all. -/
theorem claimC7_store_value_echo :
    (∀ (sess : Session) (comp_id name : String) (v : Value),
       (Session.propertySet sess comp_id name v).msg_queue =
         sess.msg_queue ++
           [{ topic := Topic.path ["store-value", comp_id, name], content := v,
              req_id := none }]) ∧
    (∀ (upd : HandlerRef → Value → Value) (sess : Session) (comp_id name : String)
       (v : Value),
       ((Session.set_store upd sess comp_id name v).2).msg_queue =
         sess.msg_queue) := by
  constructor
  · intro sess comp_id name v
    rw [Session.propertySet]
    split <;> rfl
  · intro upd sess comp_id name v
    rw [Session.set_store]
    split
    · rw [Session.exec_update_store_handler]
      split <;> rfl
    · split <;> rfl

/-- C8 (confirmed): `set_store(comp_id, name, value)` on a component present
in the table sets the state entry for `name` to the registered `on_update`
handler's return value when such a handler exists for `(comp_id, name)`, and
to the client-sent value directly otherwise. -/
theorem claimC8_set_store_value (upd : HandlerRef → Value → Value)
    (sess : Session) (comp_id name : String) (v : Value) (comp : Component)
    (hc : alookup sess.components comp_id = some comp) :
    Session.stateOf ((Session.set_store upd sess comp_id name v).2) comp_id name =
      (match alookup sess.store_update_handlers (comp_id, name) with
       | some h => some (upd h v)
       | none => some v) := by
  rw [Session.set_store]
  cases hh : alookup sess.store_update_handlers (comp_id, name) with
  | some h =>
    dsimp only
    rw [Session.exec_update_store_handler, hh, hc]
    dsimp only
    rw [Session.stateOf, alookup_aset_self]
    dsimp only [Option.bind]
    rw [alookup_aset_self]
  | none =>
    dsimp only
    rw [hc]
    dsimp only
    rw [Session.stateOf, alookup_aset_self]
    dsimp only [Option.bind]
    rw [alookup_aset_self]

theorem claimC8_set_store_value_witness :
    (alookup sessHelper.components "c1" = some compHelper) ∧
    Session.stateOf ((Session.set_store updNil sessHelper "c1" "count"
        (Value.int 5)).2) "c1" "count" =
      (match alookup sessHelper.store_update_handlers ("c1", "count") with
       | some h => some (updNil h (Value.int 5))
       | none => some (Value.int 5)) :=
  ⟨by decide,
   claimC8_set_store_value updNil sessHelper "c1" "count" (Value.int 5) compHelper
     (by decide)⟩

/-- C10 (confirmed): an inbound `store-set` wire message naming a component
id absent from the session's table, with no update handler registered for
that (component id, property name), raises a `KeyError` synchronously inside
the wire-message loop; the loop terminates there — any later messages are
never processed — and the `finally` clause enqueues a `$session_disconnect`
event, so a single malformed `store-set` disconnects the whole session
rather than being skipped. -/
theorem claimC10_malformed_store_set
    (compMap : List (String × ComponentClass)) (upd : HandlerRef → Value → Value)
    (sess : Session) (comp_id name : String) (v : Value) (post : List WireMsg)
    (h1 : alookup sess.components comp_id = none)
    (h2 : alookup sess.store_update_handlers (comp_id, name) = none) :
    handleMsg compMap upd sess (WireMsg.storeSet comp_id name v) =
      (some PyErr.keyError, sess) ∧
    handle compMap upd sess (WireMsg.storeSet comp_id name v :: post) =
      { sess with event_queue :=
          sess.event_queue ++ ["$session_connect", "$session_disconnect"] } := by
  have hmsg : ∀ (s2 : Session), alookup s2.components comp_id = none →
      alookup s2.store_update_handlers (comp_id, name) = none →
      handleMsg compMap upd s2 (WireMsg.storeSet comp_id name v) =
        (some PyErr.keyError, s2) := by
    intro s2 g1 g2
    rw [handleMsg, Session.set_store, g2]
    dsimp only
    rw [g1]
  refine ⟨hmsg sess h1 h2, ?_⟩
  simp only [handle]
  rw [handleMsgs,
    hmsg { sess with event_queue := sess.event_queue ++ ["$session_connect"] } h1 h2]
  simp

theorem claimC10_malformed_store_set_witness :
    (alookup sessRoot.components "zz" = none ∧
     alookup sessRoot.store_update_handlers ("zz", "count") = none) ∧
    (handleMsg compMapW updNil sessRoot (WireMsg.storeSet "zz" "count" Value.nil) =
       (some PyErr.keyError, sessRoot) ∧
     handle compMapW updNil sessRoot
         (WireMsg.storeSet "zz" "count" Value.nil ::
           [WireMsg.destroyComponent "zz"]) =
       { sessRoot with event_queue :=
           sessRoot.event_queue ++ ["$session_connect", "$session_disconnect"] }) :=
  ⟨⟨by decide, by decide⟩,
   claimC10_malformed_store_set compMapW updNil sessRoot "zz" "count" Value.nil
     [WireMsg.destroyComponent "zz"] (by decide) (by decide)⟩

end Streamjam
